import Mathlib

set_option maxHeartbeats 1000000

/-!
Shallow embedding of the Durable Functions project traversal logic
(`traverseFunctionProject.ts`), covering `traverseFunctionProject`,
`readProxiesJson`, `mapOrchestratorsAndActivitiesAsync`, `getEventNames`,
`getFunctionsAndTheirCodesAsync` and `mapActivitiesToOrchestrator`.

JavaScript objects keyed by function name are embedded as association
lists (preserving insertion order, as `Object.keys` does for string keys);
`async`/`await` I/O helpers that live in other files of the repository
(`traverseFunctionProjectUtils.ts`, `traverseDotNetIsolatedOrJavaProject.ts`)
are abstracted into an explicit environment record, and the concurrent
fan-out over function names is linearized (the spec notes order of
completion is irrelevant because each unit writes to a distinct map key).
Regular-expression matchers from `TraversalRegexes` / `BindingsParser`
are environment functions returning the observable result of `exec`
(a Bool, a match list, or an extracted binding list); the two regexes that
are built inline in this file (the proxy-name locator and the `.csproj`
proxies entry check) are implemented concretely on character lists.
-/

/-- One entry of a function's `bindings` array: only the `type` and
`direction` fields are read by the traversal code; the remaining
kind-specific JSON fields are never inspected and are omitted.
A JS `undefined` direction is `none`. -/
structure Binding where
  type : String
  direction : Option String
deriving DecidableEq, Repr

/-- Truthiness of an optional JS string: `undefined` and `""` are falsy. -/
def strTruthy : Option String → Bool
  | none => false
  | some s => !s.isEmpty

/-- The merge loop of the dotNet enrichment block
(`mapOrchestratorsAndActivitiesAsync`, lines 271–284): a binding extracted
from code is appended only if its `type` is not among
`existingBindingTypes`, a snapshot of the descriptor-derived list's types
taken before the loop. -/
def mergeBindings (bindingsFromFunctionJson bindingsFromCode : List Binding) : List Binding :=
  let existingBindingTypes := bindingsFromFunctionJson.map (fun b => b.type)
  bindingsFromCode.foldl
    (fun acc binding =>
      if existingBindingTypes.contains binding.type then acc else acc ++ [binding])
    bindingsFromFunctionJson

/-- The per-binding body of the default-direction loop (lines 287–298):
if the binding's `direction` is falsy and exactly one binding of the same
`type` was extracted from code, that binding's direction is copied over. -/
def applyDefaultDirection (bindingsFromCode : List Binding) (binding : Binding) : Binding :=
  if !strTruthy binding.direction then
    match bindingsFromCode.filter (fun b => b.type == binding.type) with
    | [b0] => { binding with direction := b0.direction }
    | _ => binding
  else binding

/-- The default-direction loop of the enrichment block (lines 286–298),
run over the merged binding list. -/
def setDefaultDirections (bindingsFromFunctionJson bindingsFromCode : List Binding) : List Binding :=
  bindingsFromFunctionJson.map (applyDefaultDirection bindingsFromCode)

/-- The whole enrichment step for one function (lines 269–298): merge the
code-extracted bindings into the descriptor-derived list, then infer
missing directions. -/
def enrichBindings (bindingsFromFunctionJson bindingsFromCode : List Binding) : List Binding :=
  setDefaultDirections (mergeBindings bindingsFromFunctionJson bindingsFromCode) bindingsFromCode

theorem foldl_push_filter (ts : List String) (c : List Binding) (acc : List Binding) :
    c.foldl (fun a b => if ts.contains b.type then a else a ++ [b]) acc
      = acc ++ c.filter (fun b => !ts.contains b.type) := by
  induction c generalizing acc with
  | nil => simp
  | cons hd tl ih =>
    simp only [List.foldl_cons, List.filter_cons]
    by_cases h : ts.contains hd.type = true
    · rw [if_pos h, if_neg (by simpa using h), ih]
    · have hb : ts.contains hd.type = false := by
        cases hx : ts.contains hd.type
        · rfl
        · exact absurd hx h
      rw [if_neg h, if_pos (by simpa using hb), ih (acc ++ [hd])]
      simp

theorem mergeBindings_eq (d c : List Binding) :
    mergeBindings d c
      = d ++ c.filter (fun b => !(d.map (fun b => b.type)).contains b.type) := by
  simpa [mergeBindings] using foldl_push_filter (d.map (fun b => b.type)) c d

theorem mem_type_mergeBindings (d c : List Binding) (b : Binding) (hb : b ∈ c) :
    b.type ∈ (mergeBindings d c).map (fun b => b.type) := by
  rw [mergeBindings_eq, List.map_append, List.mem_append]
  by_cases h : b.type ∈ d.map (fun b => b.type)
  · exact Or.inl h
  · right
    refine List.mem_map_of_mem _ (List.mem_filter.mpr ⟨hb, ?_⟩)
    simpa using h

theorem applyDefaultDirection_type (c : List Binding) (b : Binding) :
    (applyDefaultDirection c b).type = b.type := by
  unfold applyDefaultDirection
  split
  · split <;> rfl
  · rfl

theorem applyDefaultDirection_idem (c : List Binding) (b : Binding) :
    applyDefaultDirection c (applyDefaultDirection c b) = applyDefaultDirection c b := by
  by_cases ht : strTruthy b.direction = true
  · simp [applyDefaultDirection, ht]
  · replace ht : strTruthy b.direction = false := by
      cases h : strTruthy b.direction
      · rfl
      · exact absurd h ht
    rcases hf : c.filter (fun x => x.type == b.type) with - | ⟨b0, - | ⟨b1, tl⟩⟩
    · have h1 : applyDefaultDirection c b = b := by
        simp [applyDefaultDirection, ht, hf]
      rw [h1]; exact h1
    · have h1 : applyDefaultDirection c b = { b with direction := b0.direction } := by
        simp [applyDefaultDirection, ht, hf]
      rw [h1]
      by_cases ht0 : strTruthy b0.direction = true
      · simp [applyDefaultDirection, ht0]
      · replace ht0 : strTruthy b0.direction = false := by
          cases h : strTruthy b0.direction
          · rfl
          · exact absurd h ht0
        simp [applyDefaultDirection, ht0, hf]
    · have h1 : applyDefaultDirection c b = b := by
        simp [applyDefaultDirection, ht, hf]
      rw [h1]; exact h1

theorem types_setDefaultDirections (m c : List Binding) :
    (setDefaultDirections m c).map (fun b => b.type) = m.map (fun b => b.type) := by
  unfold setDefaultDirections
  rw [List.map_map]
  congr 1
  funext b
  simp [applyDefaultDirection_type]

theorem setDefaultDirections_idem (m c : List Binding) :
    setDefaultDirections (setDefaultDirections m c) c = setDefaultDirections m c := by
  unfold setDefaultDirections
  rw [List.map_map]
  congr 1
  funext b
  exact applyDefaultDirection_idem c b

theorem countP_type_setDefaultDirections (m c : List Binding) (p : String → Bool) :
    (setDefaultDirections m c).countP (fun b => p b.type)
      = m.countP (fun b => p b.type) := by
  unfold setDefaultDirections
  rw [List.countP_map]
  congr 1
  funext b
  simp [Function.comp, applyDefaultDirection_type]

/-- C2 as stated is false: `existingBindingTypes` is a snapshot of the
descriptor-derived list taken before the merge loop, so two code-extracted
candidates sharing a type that is absent from the descriptor are both
appended, leaving two bindings of that type. -/
theorem c2_counterexample :
    ¬ ((enrichBindings []
          [⟨"blob", some "in"⟩, ⟨"blob", some "out"⟩]).countP
        (fun b => b.type == "blob") ≤ 1) := by
  decide

/-- C2 amended: a candidate binding is appended only if no binding of its
type occurs in the descriptor-derived list as it was before the merge, so
for every type already present in the descriptor list the number of
bindings of that type is unchanged by enrichment; duplicates entirely
within the candidate list (of a type absent from the descriptor) are not
prevented. -/
theorem c2_amended (d c : List Binding) (t : String)
    (h : t ∈ d.map (fun b => b.type)) :
    (enrichBindings d c).countP (fun b => b.type == t)
      = d.countP (fun b => b.type == t) := by
  unfold enrichBindings
  rw [countP_type_setDefaultDirections (mergeBindings d c) c (fun s => s == t)]
  rw [mergeBindings_eq, List.countP_append]
  have hz : (c.filter fun b => !(d.map (fun b => b.type)).contains b.type).countP
      (fun b => b.type == t) = 0 := by
    rw [List.countP_eq_zero]
    intro b hb
    rcases List.mem_filter.mp hb with ⟨-, hb2⟩
    have hb3 : b.type ∉ d.map (fun b => b.type) := by simpa using hb2
    simp only [beq_iff_eq]
    intro hbt
    exact hb3 (hbt ▸ h)
  rw [hz, Nat.add_zero]

theorem c2_amended_witness :
    ("queue" ∈ ([⟨"queue", some "out"⟩] : List Binding).map (fun b => b.type)) ∧
    (enrichBindings [⟨"queue", some "out"⟩] [⟨"queue", some "in"⟩]).countP
        (fun b => b.type == "queue")
      = ([⟨"queue", some "out"⟩] : List Binding).countP (fun b => b.type == "queue") :=
  ⟨by decide, c2_amended _ _ _ (by decide)⟩

/-- C7: the binding enrichment is idempotent — running the merge plus
direction inference a second time over the same code-extracted candidate
list leaves the binding list unchanged: after the first run every
candidate type is present, so the snapshot check rejects every candidate,
and re-running direction inference is a fixed point. -/
theorem c7_enrichBindings_idempotent (d c : List Binding) :
    enrichBindings (enrichBindings d c) c = enrichBindings d c := by
  unfold enrichBindings
  have hmerge : mergeBindings (setDefaultDirections (mergeBindings d c) c) c
      = setDefaultDirections (mergeBindings d c) c := by
    rw [mergeBindings_eq]
    have hnil : (c.filter fun b =>
        !((setDefaultDirections (mergeBindings d c) c).map (fun b => b.type)).contains b.type)
        = [] := by
      rw [List.filter_eq_nil_iff]
      intro b hb
      have : b.type ∈ (setDefaultDirections (mergeBindings d c) c).map (fun b => b.type) := by
        rw [types_setDefaultDirections]
        exact mem_type_mergeBindings d c b hb
      simp [this]
    rw [hnil, List.append_nil]
  rw [hmerge]
  exact setDefaultDirections_idem _ _

/-- C8: for a binding of the merged list whose direction is falsy, if the
code-extracted candidates contain exactly one binding of the same type its
direction is copied over, and otherwise the binding is left unchanged. -/
theorem c8_direction_inference (d c : List Binding) (i : Nat) (binding : Binding)
    (hget : (mergeBindings d c)[i]? = some binding)
    (hfalsy : strTruthy binding.direction = false) :
    (∀ b0, c.filter (fun b => b.type == binding.type) = [b0] →
        (enrichBindings d c)[i]? = some { binding with direction := b0.direction })
  ∧ ((c.filter (fun b => b.type == binding.type)).length ≠ 1 →
        (enrichBindings d c)[i]? = some binding) := by
  have hmain : (enrichBindings d c)[i]? = some (applyDefaultDirection c binding) := by
    unfold enrichBindings setDefaultDirections
    rw [List.getElem?_map, hget]
    rfl
  constructor
  · intro b0 hf
    rw [hmain]
    simp [applyDefaultDirection, hfalsy, hf]
  · intro hlen
    rw [hmain]
    rcases hf : c.filter (fun b => b.type == binding.type) with - | ⟨b0, - | ⟨b1, tl⟩⟩
    · simp [applyDefaultDirection, hfalsy, hf]
    · exact absurd (by rw [hf]; rfl) hlen
    · simp [applyDefaultDirection, hfalsy, hf]

theorem c8_direction_inference_witness :
    (enrichBindings [⟨"queue", none⟩] [⟨"queue", some "out"⟩])[0]?
      = some ⟨"queue", some "out"⟩ :=
  (c8_direction_inference [⟨"queue", none⟩] [⟨"queue", some "out"⟩] 0
      ⟨"queue", none⟩ (by decide) (by decide)).1 ⟨"queue", some "out"⟩ (by decide)

/-- One element of a function's `isSignalledBy` list:
`{ name: func.name, signalName: eventName }`. -/
structure SignalledByEntry where
  name : String
  signalName : String
deriving DecidableEq, Repr

/-- The per-function record of the FunctionsMap. `function.json` reading
seeds `{ bindings, isCalledBy: [], isSignalledBy: [] }`; the remaining
fields are absent (falsy) until the mapping passes assign them, which is
modelled by `false` / `none` defaults. -/
structure FunctionInfo where
  bindings : List Binding
  isCalledBy : List String
  isSignalledBy : List SignalledByEntry
  isCalledByItself : Bool := false
  filePath : Option String := none
  pos : Option Nat := none
  lineNr : Option Nat := none
deriving DecidableEq, Repr

/-- A JS object keyed by function name, as an insertion-ordered
association list. -/
abbrev FunctionsMap := List (String × FunctionInfo)

/-- `Object.keys(functions)`. -/
def keysOf (m : FunctionsMap) : List String := m.map (fun kv => kv.1)

/-- `functions[name]` (first entry with that key). -/
def lookupFn : FunctionsMap → String → Option FunctionInfo
  | [], _ => none
  | (k, v) :: rest, n => if k == n then some v else lookupFn rest n

/-- In-place mutation `functions[name] = f(functions[name])`; a no-op on
a missing key (the traversal only updates names drawn from
`Object.keys(functions)`, so the key is always present). -/
def updateFunc (m : FunctionsMap) (name : String) (f : FunctionInfo → FunctionInfo) : FunctionsMap :=
  m.map (fun kv => if kv.1 == name then (kv.1, f kv.2) else kv)

/-- `functions[target].isCalledBy.push(caller)`. -/
def pushCalledBy (m : FunctionsMap) (target caller : String) : FunctionsMap :=
  updateFunc m target (fun info => { info with isCalledBy := info.isCalledBy ++ [caller] })

/-- `functions[target].isSignalledBy.push({name, signalName})`. -/
def pushSignalledBy (m : FunctionsMap) (target funcName eventName : String) : FunctionsMap :=
  updateFunc m target (fun info =>
    { info with isSignalledBy := info.isSignalledBy ++ [⟨funcName, eventName⟩] })

/-- `functions[target].isCalledByItself = true`. -/
def setCalledByItself (m : FunctionsMap) (target : String) : FunctionsMap :=
  updateFunc m target (fun info => { info with isCalledByItself := true })

/-- `functions[name].bindings`, for names drawn from `Object.keys`. -/
def bindingsAt (m : FunctionsMap) (n : String) : List Binding :=
  ((lookupFn m n).map (fun i => i.bindings)).getD []

/-- `functions[name].isCalledBy`. -/
def calledByAt (m : FunctionsMap) (n : String) : List String :=
  ((lookupFn m n).map (fun i => i.isCalledBy)).getD []

/-- `functions[name].isSignalledBy`. -/
def signalledByAt (m : FunctionsMap) (n : String) : List SignalledByEntry :=
  ((lookupFn m n).map (fun i => i.isSignalledBy)).getD []

/-- `functions[name].isCalledByItself` (absent entry reads as falsy). -/
def calledByItselfAt (m : FunctionsMap) (n : String) : Bool :=
  ((lookupFn m n).map (fun i => i.isCalledByItself)).getD false

/-- Result of `findFileRecursivelyAsync` when a file matched. All call
sites modelled here that consume `code` pass `returnFileContents: true`,
so `code` is the file's contents; `pos`/`length` are set only when a
content regex was supplied and matched. -/
structure FileMatch where
  filePath : String
  code : String
  pos : Option Nat
  length : Option Nat
deriving DecidableEq, Repr

/-- Result of `cloneFromGitHub`. -/
structure GitInfo where
  gitTempFolder : String
  projectFolder : String
deriving DecidableEq, Repr

/-- The `projectKind` variant of `mapOrchestratorsAndActivitiesAsync`. -/
inductive ProjectKind
  | dotNet
  | java
  | other
deriving DecidableEq, Repr

/-- One element of the lists produced by `getFunctionsAndTheirCodesAsync`:
`{ name, code, filePath, pos, lineNr }`. -/
structure FuncCode where
  name : String
  code : String
  filePath : String
  pos : Nat
  lineNr : Nat
deriving DecidableEq, Repr

/-- Outcome of inspecting one directory entry of the host.json folder for
a `function.json` descriptor (lines 88–107). -/
inductive FunctionJsonOutcome
  /-- Not a directory, or no `function.json` inside it. -/
  | notAFunctionDir
  /-- Read or `JSON.parse` threw: logged and skipped (non-fatal). -/
  | unreadable
  /-- Parsed: the descriptor's `bindings` array. -/
  | parsed (bindings : List Binding)
deriving DecidableEq, Repr

/-- Environment of I/O primitives and regex matchers used by the
traversal. The file-system, process and JSON helpers
(`findFileRecursivelyAsync`, `cloneFromGitHub`, `isDotNetProjectAsync`,
`isDotNetIsolatedProjectAsync`, `isJavaProjectAsync`, `getCodeInBrackets`,
`dotnet publish`, `JSON.parse`, the java / dotNet-isolated descriptor
traversals) and the `TraversalRegexes` / `BindingsParser` matchers live in
files of the repository outside the analysed sources and are abstracted to
functions returning their observable results. A regex built from a target
name is represented by the function applied to that name. `Except.error`
models a thrown (fatal) JS exception. -/
structure Env where
  /-- Clones a git URL; returns the temp folder and the project folder. -/
  cloneFromGitHub : String → Except String GitInfo
  /-- `findFileRecursivelyAsync folder fileNamePattern returnFileContents pattern`:
  first file under `folder` whose name matches `fileNamePattern` and whose
  contents match the content regex, when one is given; the content regex is
  always `TraversalRegexes.getDotNetFunctionNameRegex name` here and is
  represented by `some name`. -/
  findFileRecursively : String → String → Bool → Option String → Option FileMatch
  /-- `path.dirname`. -/
  dirname : String → String
  /-- `path.join`. -/
  pathJoin : String → String → String
  /-- `fs.existsSync`. -/
  fileExists : String → Bool
  /-- `fs.promises.readFile(..., utf8)`. -/
  readFile : String → String
  /-- `fs.promises.readdir`. -/
  readdir : String → List String
  /-- Per directory entry: `lstat`/`existsSync`/`readFile`/`JSON.parse` of
  its `function.json` (lines 90–106). -/
  tryReadFunctionJson : String → String → FunctionJsonOutcome
  /-- `isDotNetIsolatedProjectAsync`. -/
  isDotNetIsolatedProject : String → Bool
  /-- `isDotNetProjectAsync`. -/
  isDotNetProject : String → Bool
  /-- `isJavaProjectAsync`. -/
  isJavaProject : String → Bool
  /-- `mkdtemp` plus `dotnet publish -o` (lines 60–65): on success the
  publish temp folder; a build failure throws and is fatal. -/
  dotnetPublish : String → Except String String
  /-- `traverseJavaProject`. -/
  traverseJavaProject : String → FunctionsMap
  /-- `traverseDotNetIsolatedProject`. -/
  traverseDotNetIsolatedProject : String → FunctionsMap
  /-- `getCodeInBrackets(code, position, open, close, ignorable).code`. -/
  getCodeInBrackets : String → Nat → Char → Char → String → String
  /-- Whether `TraversalRegexes.getStartNewOrchestrationRegex(name).exec(code)`
  is truthy. -/
  startNewOrchestrationMatches : String → String → Bool
  /-- Whether `TraversalRegexes.getCallSubOrchestratorRegex(name).exec(code)`
  is truthy. -/
  callSubOrchestratorMatches : String → String → Bool
  /-- Whether `TraversalRegexes.getCallActivityRegex(name).exec(code)` is
  truthy. -/
  callActivityMatches : String → String → Bool
  /-- Whether `TraversalRegexes.continueAsNewRegex.exec(code)` is truthy. -/
  continueAsNewMatches : String → Bool
  /-- Whether `TraversalRegexes.getRaiseEventRegex(eventName).exec(code)` is
  truthy. -/
  raiseEventMatches : String → String → Bool
  /-- Whether `TraversalRegexes.getSignalEntityRegex(name).exec(code)` is
  truthy. -/
  signalEntityMatches : String → String → Bool
  /-- The fourth capture group of each successive match of the stateful
  global regex `TraversalRegexes.waitForExternalEventRegex` against the
  code, in order — the values collected by the `while (match = exec(...))`
  loop of `getEventNames`. -/
  waitForExternalEventCaptures : String → List String
  /-- `BindingsParser.tryExtractBindings(code)`, as `type`/`direction`
  pairs. -/
  tryExtractBindings : String → List Binding
  /-- `JSON.parse(s).proxies`: `none` when `JSON.parse` throws, `some none`
  when the parsed object has no truthy `proxies` property, else the proxy
  entries in object order. The computed fields (`filePath`, `pos`,
  `lineNr`, `warningNotAddedToCsProjFile`) are not part of the descriptor
  and are unset in the parsed entries. -/
  parseProxiesJson : String → Option (Option (List (String × String)))

/-- Modelled from the spec: `posToLineNr` of
`traverseFunctionProjectUtils.ts` is not among the analysed sources;
per the spec (§4.2 offsetToLineNumber) it counts newline characters
before `offset`, 1-based. -/
def posToLineNr (code : String) (pos : Nat) : Nat :=
  1 + (code.data.take pos).countP (fun ch => ch == '\n')

/-- The `projectKind` determination of `mapOrchestratorsAndActivitiesAsync`
(lines 181–187) — note it probes `projectFolder`, not `hostJsonFolder`. -/
def projectKindOf (env : Env) (projectFolder : String) : ProjectKind :=
  if env.isDotNetProject projectFolder then ProjectKind.dotNet
  else if env.isJavaProject projectFolder then ProjectKind.java
  else ProjectKind.other

/-- `orchestratorNames` (line 191): names whose bindings contain an
`orchestrationTrigger`. -/
def orchestratorNamesOf (functions : FunctionsMap) : List String :=
  (keysOf functions).filter
    (fun name => (bindingsAt functions name).any (fun b => b.type == "orchestrationTrigger"))

/-- `activityNames` (line 194). -/
def activityNamesOf (functions : FunctionsMap) : List String :=
  (keysOf functions).filter
    (fun name => (bindingsAt functions name).any (fun b => b.type == "activityTrigger"))

/-- `entityNames` (line 197). -/
def entityNamesOf (functions : FunctionsMap) : List String :=
  (keysOf functions).filter
    (fun name => (bindingsAt functions name).any (fun b => b.type == "entityTrigger"))

/-- `otherFunctionNames` (line 200): no binding whose type is among the
three trigger types. -/
def otherFunctionNamesOf (functions : FunctionsMap) : List String :=
  (keysOf functions).filter
    (fun name => !((bindingsAt functions name).any
      (fun b => (["orchestrationTrigger", "activityTrigger", "entityTrigger"] : List String).contains b.type)))

/-- `getFunctionsAndTheirCodesAsync` (lines 327–357): per name, locate the
source file (by project kind), extract the code body (bracket-balanced for
compiled kinds, the whole file for script kinds), and compute position and
line number; names whose file is not found are dropped
(`.filter(f => !!f)`). `!match.pos ? 0 : match.pos` reads as `getD 0`. -/
def getFunctionAndItsCode (env : Env) (projectKind : ProjectKind)
    (projectFolder hostJsonFolder : String) (name : String) : Option FuncCode :=
  let fileMatch := match projectKind with
    | ProjectKind.dotNet =>
        env.findFileRecursively projectFolder ".+\\.(f|c)s$" true (some name)
    | ProjectKind.java =>
        env.findFileRecursively projectFolder ".+\\.java$" true (some name)
    | ProjectKind.other =>
        env.findFileRecursively (env.pathJoin hostJsonFolder name)
          "(index\\.ts|index\\.js|__init__\\.py)$" true none
  match fileMatch with
  | none => none
  | some m =>
    let code := if projectKind == ProjectKind.other then m.code
      else env.getCodeInBrackets m.code (m.pos.getD 0 + m.length.getD 0) '{' '}' " \n"
    let pos := m.pos.getD 0
    let lineNr := posToLineNr m.code pos
    some { name := name, code := code, filePath := m.filePath, pos := pos, lineNr := lineNr }

def getFunctionsAndTheirCodesAsync (env : Env) (functionNames : List String)
    (projectKind : ProjectKind) (projectFolder hostJsonFolder : String) : List FuncCode :=
  functionNames.filterMap (getFunctionAndItsCode env projectKind projectFolder hostJsonFolder)

/-- The `orchestrators` list (line 192). -/
def orchestratorsOf (env : Env) (functions : FunctionsMap) (projectFolder hostJsonFolder : String) : List FuncCode :=
  getFunctionsAndTheirCodesAsync env (orchestratorNamesOf functions)
    (projectKindOf env projectFolder) projectFolder hostJsonFolder

/-- The `activities` list (line 195). -/
def activitiesOf (env : Env) (functions : FunctionsMap) (projectFolder hostJsonFolder : String) : List FuncCode :=
  getFunctionsAndTheirCodesAsync env (activityNamesOf functions)
    (projectKindOf env projectFolder) projectFolder hostJsonFolder

/-- The `entities` list (line 198). -/
def entitiesOf (env : Env) (functions : FunctionsMap) (projectFolder hostJsonFolder : String) : List FuncCode :=
  getFunctionsAndTheirCodesAsync env (entityNamesOf functions)
    (projectKindOf env projectFolder) projectFolder hostJsonFolder

/-- The `otherFunctions` list (line 201). -/
def otherFunctionsOf (env : Env) (functions : FunctionsMap) (projectFolder hostJsonFolder : String) : List FuncCode :=
  getFunctionsAndTheirCodesAsync env (otherFunctionNamesOf functions)
    (projectKindOf env projectFolder) projectFolder hostJsonFolder

/-- `getEventNames` (lines 313–324): every successive match of the global
wait-for-external-event regex, collecting capture group 4. -/
def getEventNames (env : Env) (orchestratorCode : String) : List String :=
  env.waitForExternalEventCaptures orchestratorCode

/-- `mapActivitiesToOrchestrator` (lines 360–375). The defensive
`if (!functions[activityName].isCalledBy)` re-initialisation is a no-op
here because `isCalledBy` is always a list. -/
def mapActivitiesToOrchestrator (env : Env) (functions : FunctionsMap)
    (orch : FuncCode) (activityNames : List String) : FunctionsMap :=
  activityNames.foldl
    (fun fs activityName =>
      if env.callActivityMatches activityName orch.code then
        pushCalledBy fs activityName orch.name
      else fs)
    functions

/-- Lines 205–213: for each other function whose code matches the
start-new-orchestration regex for `orch`, push it onto `orch`'s
`isCalledBy`. -/
def startNewOrchestrationPass (env : Env) (otherFunctions : List FuncCode)
    (orch : FuncCode) (functions : FunctionsMap) : FunctionsMap :=
  otherFunctions.foldl
    (fun fs func =>
      if env.startNewOrchestrationMatches orch.name func.code then
        pushCalledBy fs orch.name func.name
      else fs)
    functions

/-- Lines 215–228: for each distinct sub-orchestrator whose
call-sub-orchestrator regex matches `orch`'s code, push `orch` onto the
sub-orchestrator's `isCalledBy`. -/
def subOrchestratorPass (env : Env) (orchestrators : List FuncCode)
    (orch : FuncCode) (functions : FunctionsMap) : FunctionsMap :=
  orchestrators.foldl
    (fun fs subOrch =>
      if orch.name == subOrch.name then fs
      else if env.callSubOrchestratorMatches subOrch.name orch.code then
        pushCalledBy fs subOrch.name orch.name
      else fs)
    functions

/-- Lines 233–236: set `isCalledByItself` when the continue-as-new regex
matches `orch`'s code. -/
def continueAsNewPass (env : Env) (orch : FuncCode) (functions : FunctionsMap) : FunctionsMap :=
  if env.continueAsNewMatches orch.code then setCalledByItself functions orch.name
  else functions

/-- Lines 238–250: for each awaited event name and each other function
whose code matches the raise-event regex, push a signal entry onto
`orch`'s `isSignalledBy`. -/
def signalPass (env : Env) (otherFunctions : List FuncCode)
    (orch : FuncCode) (functions : FunctionsMap) : FunctionsMap :=
  (getEventNames env orch.code).foldl
    (fun fs eventName =>
      otherFunctions.foldl
        (fun fs2 func =>
          if env.raiseEventMatches eventName func.code then
            pushSignalledBy fs2 orch.name func.name eventName
          else fs2)
        fs)
    functions

/-- The body of the `for (const orch of orchestrators)` loop
(lines 203–251): start-new-orchestration callers, sub-orchestrator edges,
activity edges, the continue-as-new self-call flag, and event
producer/consumer edges, in source order. -/
def processOrchestrator (env : Env) (orchestrators otherFunctions : List FuncCode)
    (activityNames : List String) (functions : FunctionsMap) (orch : FuncCode) : FunctionsMap :=
  signalPass env otherFunctions orch
    (continueAsNewPass env orch
      (mapActivitiesToOrchestrator env
        (subOrchestratorPass env orchestrators orch
          (startNewOrchestrationPass env otherFunctions orch functions))
        orch activityNames))

/-- Lines 253–264: for each entity and each other function whose code
matches the signal-entity regex, push the caller onto the entity's
`isCalledBy`. -/
def entityPass (env : Env) (entities otherFunctions : List FuncCode)
    (functions : FunctionsMap) : FunctionsMap :=
  entities.foldl
    (fun fs entity =>
      otherFunctions.foldl
        (fun fs2 func =>
          if env.signalEntityMatches entity.name func.code then
            pushCalledBy fs2 entity.name func.name
          else fs2)
        fs)
    functions

/-- Lines 266–300: the dotNet-only binding enrichment, run over
`activities.concat(otherFunctions)`. -/
def bindingEnrichmentPass (env : Env) (funcs : List FuncCode)
    (functions : FunctionsMap) : FunctionsMap :=
  funcs.foldl
    (fun fs func =>
      updateFunc fs func.name (fun info =>
        { info with bindings := enrichBindings info.bindings (env.tryExtractBindings func.code) }))
    functions

/-- Lines 302–307: copy file path, position, and line number onto each
located function. -/
def filePathPass (funcs : List FuncCode) (functions : FunctionsMap) : FunctionsMap :=
  funcs.foldl
    (fun fs func =>
      updateFunc fs func.name (fun info =>
        { info with filePath := some func.filePath, pos := some func.pos, lineNr := some func.lineNr }))
    functions

/-- `mapOrchestratorsAndActivitiesAsync` (lines 179–310). -/
def mapOrchestratorsAndActivitiesAsync (env : Env) (functions : FunctionsMap)
    (projectFolder hostJsonFolder : String) : FunctionsMap :=
  let projectKind := projectKindOf env projectFolder
  let orchestrators := orchestratorsOf env functions projectFolder hostJsonFolder
  let activities := activitiesOf env functions projectFolder hostJsonFolder
  let entities := entitiesOf env functions projectFolder hostJsonFolder
  let otherFunctions := otherFunctionsOf env functions projectFolder hostJsonFolder
  let activityNames := activityNamesOf functions
  let functions1 := orchestrators.foldl
    (processOrchestrator env orchestrators otherFunctions activityNames) functions
  let functions2 := entityPass env entities otherFunctions functions1
  let functions3 :=
    if projectKind == ProjectKind.dotNet then
      bindingEnrichmentPass env (activities ++ otherFunctions) functions2
    else functions2
  filePathPass (otherFunctions ++ orchestrators ++ activities ++ entities) functions3

theorem contains_filter_of_mem (l : List String) (p : String → Bool) (n : String)
    (hm : n ∈ l) : (l.filter p).contains n = p n := by
  cases h : p n
  · have hnot : n ∉ l.filter p := fun hmem => by
      rcases List.mem_filter.mp hmem with ⟨-, h2⟩
      rw [h] at h2
      exact Bool.false_ne_true h2
    simpa using hnot
  · simpa using List.mem_filter.mpr ⟨hm, h⟩

theorem any_contains_three_types (bs : List Binding) :
    bs.any (fun b =>
        (["orchestrationTrigger", "activityTrigger", "entityTrigger"] : List String).contains b.type)
      = (bs.any (fun b => b.type == "orchestrationTrigger")
         || bs.any (fun b => b.type == "activityTrigger")
         || bs.any (fun b => b.type == "entityTrigger")) := by
  rw [Bool.eq_iff_iff]
  simp only [List.any_eq_true, List.contains_cons, List.contains_nil, Bool.or_eq_true,
    beq_iff_eq, Bool.false_eq_true, or_false]
  constructor
  · rintro ⟨b, hb, h1 | h2 | h3⟩
    · exact Or.inl (Or.inl ⟨b, hb, h1⟩)
    · exact Or.inl (Or.inr ⟨b, hb, h2⟩)
    · exact Or.inr ⟨b, hb, h3⟩
  · rintro ((⟨b, hb, h⟩ | ⟨b, hb, h⟩) | ⟨b, hb, h⟩)
    · exact ⟨b, hb, Or.inl h⟩
    · exact ⟨b, hb, Or.inr (Or.inl h)⟩
    · exact ⟨b, hb, Or.inr (Or.inr h)⟩

/-- A function declaring both an orchestration trigger and an activity
trigger, used to refute C1's disjointness. -/
def c1Functions : FunctionsMap :=
  [("F", { bindings := [⟨"orchestrationTrigger", none⟩, ⟨"activityTrigger", none⟩],
           isCalledBy := [], isSignalledBy := [] })]

/-- C1 as stated is false: the four name lists are built by four
independent filters over the same key list, so a function declaring both
an orchestration trigger and an activity trigger appears in both the
orchestrator and the activity list — not in exactly one of the four. -/
theorem c1_counterexample :
    ¬ (([orchestratorNamesOf c1Functions, activityNamesOf c1Functions,
         entityNamesOf c1Functions, otherFunctionNamesOf c1Functions].countP
          (fun l => l.contains "F")) = 1) := by
  decide

/-- C1 amended: each function appears in the orchestrator / activity /
entity name list exactly when its bindings contain the corresponding
trigger type, and in the other list exactly when they contain none of the
three; hence every function lands in at least one list, but a function
declaring several of the trigger types appears in one list per declared
trigger type, so the buckets are disjoint and exhaustive only for
functions with at most one of the three trigger types. -/
theorem c1_amended (functions : FunctionsMap) (n : String) (hmem : n ∈ keysOf functions) :
    ([orchestratorNamesOf functions, activityNamesOf functions,
      entityNamesOf functions, otherFunctionNamesOf functions].countP
        (fun l => l.contains n))
      = (if ((bindingsAt functions n).any (fun b => b.type == "orchestrationTrigger")
            || (bindingsAt functions n).any (fun b => b.type == "activityTrigger")
            || (bindingsAt functions n).any (fun b => b.type == "entityTrigger")) then
          ((bindingsAt functions n).any (fun b => b.type == "orchestrationTrigger")).toNat
          + ((bindingsAt functions n).any (fun b => b.type == "activityTrigger")).toNat
          + ((bindingsAt functions n).any (fun b => b.type == "entityTrigger")).toNat
        else 1) := by
  simp only [List.countP_cons, List.countP_nil, orchestratorNamesOf, activityNamesOf,
    entityNamesOf, otherFunctionNamesOf]
  rw [contains_filter_of_mem _ _ _ hmem, contains_filter_of_mem _ _ _ hmem,
    contains_filter_of_mem _ _ _ hmem, contains_filter_of_mem _ _ _ hmem,
    any_contains_three_types]
  cases h1 : (bindingsAt functions n).any (fun b => b.type == "orchestrationTrigger") <;>
    cases h2 : (bindingsAt functions n).any (fun b => b.type == "activityTrigger") <;>
      cases h3 : (bindingsAt functions n).any (fun b => b.type == "entityTrigger") <;>
        simp

/-- A single-trigger function map for instantiating `c1_amended`. -/
def c1WitnessFunctions : FunctionsMap :=
  [("G", { bindings := [⟨"orchestrationTrigger", none⟩],
           isCalledBy := [], isSignalledBy := [] })]

theorem c1_amended_witness :
    ("G" ∈ keysOf c1WitnessFunctions) ∧
    (([orchestratorNamesOf c1WitnessFunctions, activityNamesOf c1WitnessFunctions,
       entityNamesOf c1WitnessFunctions, otherFunctionNamesOf c1WitnessFunctions].countP
         (fun l => l.contains "G"))
      = (if ((bindingsAt c1WitnessFunctions "G").any (fun b => b.type == "orchestrationTrigger")
            || (bindingsAt c1WitnessFunctions "G").any (fun b => b.type == "activityTrigger")
            || (bindingsAt c1WitnessFunctions "G").any (fun b => b.type == "entityTrigger")) then
          ((bindingsAt c1WitnessFunctions "G").any (fun b => b.type == "orchestrationTrigger")).toNat
          + ((bindingsAt c1WitnessFunctions "G").any (fun b => b.type == "activityTrigger")).toNat
          + ((bindingsAt c1WitnessFunctions "G").any (fun b => b.type == "entityTrigger")).toNat
        else 1)) :=
  ⟨by decide, c1_amended c1WitnessFunctions "G" (by decide)⟩

theorem lookupFn_updateFunc (m : FunctionsMap) (t : String) (f : FunctionInfo → FunctionInfo)
    (n : String) :
    lookupFn (updateFunc m t f) n = if n = t then (lookupFn m n).map f else lookupFn m n := by
  induction m with
  | nil => simp [updateFunc, lookupFn]
  | cons kv rest ih =>
    obtain ⟨k, v⟩ := kv
    have hstep : updateFunc ((k, v) :: rest) t f
        = (if (k == t) = true then (k, f v) else (k, v)) :: updateFunc rest t f := rfl
    rw [hstep]
    by_cases hkt : k = t <;> by_cases hkn : k = n
    · subst hkt; subst hkn
      rw [if_pos (show (k == k) = true by simp)]
      simp [lookupFn]
    · subst hkt
      have hkn' : (k == n) = false := by simp [hkn]
      have hnt : ¬(n = k) := fun h => hkn h.symm
      rw [if_pos (by simp), lookupFn, lookupFn, hkn', if_neg hnt]
      simp only [Bool.false_eq_true, if_false]
      rw [ih, if_neg hnt]
    · subst hkn
      have hkt' : (k == t) = false := by simp [hkt]
      rw [if_neg (by simp [hkt]), if_neg hkt, lookupFn, lookupFn]
      simp
    · have hkt' : (k == t) = false := by simp [hkt]
      have hkn' : (k == n) = false := by simp [hkn]
      rw [if_neg (by simp [hkt]), lookupFn, lookupFn, hkn']
      simp only [Bool.false_eq_true, if_false]
      rw [ih]

theorem keysOf_updateFunc (m : FunctionsMap) (t : String) (f : FunctionInfo → FunctionInfo) :
    keysOf (updateFunc m t f) = keysOf m := by
  unfold keysOf updateFunc
  rw [List.map_map]
  congr 1
  funext kv
  by_cases h : kv.1 = t <;> simp [h]

theorem lookupFn_isSome_of_mem_keys (m : FunctionsMap) (n : String) (h : n ∈ keysOf m) :
    (lookupFn m n).isSome := by
  induction m with
  | nil => simp [keysOf] at h
  | cons kv rest ih =>
    obtain ⟨k, v⟩ := kv
    by_cases hk : k = n
    · simp [lookupFn, hk]
    · have : (k == n) = false := by simp [hk]
      rw [lookupFn, this]
      simp only [Bool.false_eq_true, if_false]
      rcases List.mem_cons.mp h with h1 | h2
      · exact absurd h1.symm hk
      · exact ih h2

theorem foldl_fix {α β γ : Type _} (g : β → γ) (f : β → α → β) (l : List α) (b : β)
    (h : ∀ acc a, a ∈ l → g (f acc a) = g acc) : g (l.foldl f b) = g b := by
  induction l generalizing b with
  | nil => rfl
  | cons hd tl ih =>
    rw [List.foldl_cons, ih (f b hd) (fun acc a ha => h acc a (List.mem_cons_of_mem hd ha)),
      h b hd (List.mem_cons_self _ _)]

theorem foldl_pred {α β : Type _} (p : β → Prop) (f : β → α → β) (l : List α) (b : β)
    (h : ∀ acc a, a ∈ l → p acc → p (f acc a)) (hb : p b) : p (l.foldl f b) := by
  induction l generalizing b with
  | nil => exact hb
  | cons hd tl ih =>
    exact ih (f b hd) (fun acc a ha => h acc a (List.mem_cons_of_mem hd ha))
      (h b hd (List.mem_cons_self _ _) hb)

theorem calledByItselfAt_updateFunc (m : FunctionsMap) (t : String)
    (f : FunctionInfo → FunctionInfo) (n : String)
    (hf : ∀ i, (f i).isCalledByItself = i.isCalledByItself) :
    calledByItselfAt (updateFunc m t f) n = calledByItselfAt m n := by
  unfold calledByItselfAt
  rw [lookupFn_updateFunc]
  by_cases h : n = t
  · subst h
    rw [if_pos rfl]
    cases lookupFn m n with
    | none => rfl
    | some i => simp [hf i]
  · rw [if_neg h]

theorem calledByAt_updateFunc (m : FunctionsMap) (t : String)
    (f : FunctionInfo → FunctionInfo) (n : String)
    (hf : ∀ i, (f i).isCalledBy = i.isCalledBy) :
    calledByAt (updateFunc m t f) n = calledByAt m n := by
  unfold calledByAt
  rw [lookupFn_updateFunc]
  by_cases h : n = t
  · subst h
    rw [if_pos rfl]
    cases lookupFn m n with
    | none => rfl
    | some i => simp [hf i]
  · rw [if_neg h]

theorem signalledByAt_updateFunc (m : FunctionsMap) (t : String)
    (f : FunctionInfo → FunctionInfo) (n : String)
    (hf : ∀ i, (f i).isSignalledBy = i.isSignalledBy) :
    signalledByAt (updateFunc m t f) n = signalledByAt m n := by
  unfold signalledByAt
  rw [lookupFn_updateFunc]
  by_cases h : n = t
  · subst h
    rw [if_pos rfl]
    cases lookupFn m n with
    | none => rfl
    | some i => simp [hf i]
  · rw [if_neg h]

theorem updateFunc_ne (m : FunctionsMap) (t : String) (f : FunctionInfo → FunctionInfo)
    (n : String) (h : n ≠ t) : lookupFn (updateFunc m t f) n = lookupFn m n := by
  rw [lookupFn_updateFunc, if_neg h]

theorem calledByItselfAt_setCalledByItself_self (m : FunctionsMap) (t : String)
    (h : (lookupFn m t).isSome) :
    calledByItselfAt (setCalledByItself m t) t = true := by
  unfold calledByItselfAt setCalledByItself
  rw [lookupFn_updateFunc, if_pos rfl]
  cases hl : lookupFn m t with
  | none => rw [hl] at h; exact absurd h (by simp)
  | some i => simp

theorem calledByItselfAt_setCalledByItself_ne (m : FunctionsMap) (t n : String)
    (h : n ≠ t) :
    calledByItselfAt (setCalledByItself m t) n = calledByItselfAt m n := by
  unfold calledByItselfAt setCalledByItself
  rw [updateFunc_ne m t _ n h]

theorem calledByAt_pushCalledBy_ne (m : FunctionsMap) (t c n : String) (h : n ≠ t) :
    calledByAt (pushCalledBy m t c) n = calledByAt m n := by
  unfold calledByAt pushCalledBy
  rw [updateFunc_ne m t _ n h]

theorem calledByAt_pushCalledBy_self (m : FunctionsMap) (t c : String)
    (h : (lookupFn m t).isSome) :
    calledByAt (pushCalledBy m t c) t = calledByAt m t ++ [c] := by
  unfold calledByAt pushCalledBy
  rw [lookupFn_updateFunc, if_pos rfl]
  cases hl : lookupFn m t with
  | none => rw [hl] at h; exact absurd h (by simp)
  | some i => simp

theorem mem_calledByAt_pushCalledBy (m : FunctionsMap) (t c n x : String)
    (hx : x ∈ calledByAt m n) : x ∈ calledByAt (pushCalledBy m t c) n := by
  by_cases h : n = t
  · subst h
    unfold calledByAt pushCalledBy
    rw [lookupFn_updateFunc, if_pos rfl]
    cases hl : lookupFn m n with
    | none => unfold calledByAt at hx; rw [hl] at hx; simp at hx
    | some i =>
      unfold calledByAt at hx
      rw [hl] at hx
      simp only [Option.map] at hx ⊢
      simp at hx ⊢
      exact Or.inl hx
  · rw [calledByAt_pushCalledBy_ne m t c n h]
    exact hx

theorem signalledByAt_pushSignalledBy_ne (m : FunctionsMap) (t fn ev n : String) (h : n ≠ t) :
    signalledByAt (pushSignalledBy m t fn ev) n = signalledByAt m n := by
  unfold signalledByAt pushSignalledBy
  rw [updateFunc_ne m t _ n h]

theorem signalledByAt_pushSignalledBy_self (m : FunctionsMap) (t fn ev : String)
    (h : (lookupFn m t).isSome) :
    signalledByAt (pushSignalledBy m t fn ev) t = signalledByAt m t ++ [⟨fn, ev⟩] := by
  unfold signalledByAt pushSignalledBy
  rw [lookupFn_updateFunc, if_pos rfl]
  cases hl : lookupFn m t with
  | none => rw [hl] at h; exact absurd h (by simp)
  | some i => simp

theorem keysOf_pushCalledBy (m : FunctionsMap) (t c : String) :
    keysOf (pushCalledBy m t c) = keysOf m := keysOf_updateFunc m t _

theorem keysOf_pushSignalledBy (m : FunctionsMap) (t fn ev : String) :
    keysOf (pushSignalledBy m t fn ev) = keysOf m := keysOf_updateFunc m t _

theorem keysOf_setCalledByItself (m : FunctionsMap) (t : String) :
    keysOf (setCalledByItself m t) = keysOf m := keysOf_updateFunc m t _

theorem calledByItselfAt_pushCalledBy (m : FunctionsMap) (t c n : String) :
    calledByItselfAt (pushCalledBy m t c) n = calledByItselfAt m n :=
  calledByItselfAt_updateFunc m t _ n (fun _ => rfl)

theorem calledByItselfAt_pushSignalledBy (m : FunctionsMap) (t fn ev n : String) :
    calledByItselfAt (pushSignalledBy m t fn ev) n = calledByItselfAt m n :=
  calledByItselfAt_updateFunc m t _ n (fun _ => rfl)

theorem signalledByAt_pushCalledBy (m : FunctionsMap) (t c n : String) :
    signalledByAt (pushCalledBy m t c) n = signalledByAt m n :=
  signalledByAt_updateFunc m t _ n (fun _ => rfl)

theorem signalledByAt_setCalledByItself (m : FunctionsMap) (t n : String) :
    signalledByAt (setCalledByItself m t) n = signalledByAt m n :=
  signalledByAt_updateFunc m t _ n (fun _ => rfl)

theorem calledByAt_pushSignalledBy (m : FunctionsMap) (t fn ev n : String) :
    calledByAt (pushSignalledBy m t fn ev) n = calledByAt m n :=
  calledByAt_updateFunc m t _ n (fun _ => rfl)

theorem calledByAt_setCalledByItself (m : FunctionsMap) (t n : String) :
    calledByAt (setCalledByItself m t) n = calledByAt m n :=
  calledByAt_updateFunc m t _ n (fun _ => rfl)

theorem map_name_filterMap_sublist (g : String → Option FuncCode) (l : List String)
    (hg : ∀ n fc, g n = some fc → fc.name = n) :
    ((l.filterMap g).map (fun fc => fc.name)).Sublist l := by
  induction l with
  | nil => simp
  | cons hd tl ih =>
    rw [List.filterMap_cons]
    cases hgd : g hd with
    | none => exact List.Sublist.cons hd ih
    | some fc =>
      rw [List.map_cons, hg hd fc hgd]
      exact List.Sublist.cons₂ hd ih

theorem getFunctionAndItsCode_name (env : Env) (k : ProjectKind) (pf hf n : String)
    (fc : FuncCode) (h : getFunctionAndItsCode env k pf hf n = some fc) : fc.name = n := by
  unfold getFunctionAndItsCode at h
  cases k <;> dsimp only at h <;> split at h <;>
    first
      | exact Option.noConfusion h
      | rw [← Option.some.inj h]

theorem names_getFunctions_sublist (env : Env) (names : List String) (k : ProjectKind)
    (pf hf : String) :
    ((getFunctionsAndTheirCodesAsync env names k pf hf).map (fun fc => fc.name)).Sublist names := by
  unfold getFunctionsAndTheirCodesAsync
  exact map_name_filterMap_sublist _ names (fun n fc h => getFunctionAndItsCode_name env k pf hf n fc h)

theorem mem_getFunctions_name (env : Env) (names : List String) (k : ProjectKind)
    (pf hf : String) (fc : FuncCode)
    (h : fc ∈ getFunctionsAndTheirCodesAsync env names k pf hf) : fc.name ∈ names := by
  unfold getFunctionsAndTheirCodesAsync at h
  rcases List.mem_filterMap.mp h with ⟨n, hn, hsome⟩
  rw [getFunctionAndItsCode_name env k pf hf n fc hsome]
  exact hn

theorem lookupFn_isSome_updateFunc (m : FunctionsMap) (t : String)
    (f : FunctionInfo → FunctionInfo) (n : String) :
    (lookupFn (updateFunc m t f) n).isSome = (lookupFn m n).isSome := by
  rw [lookupFn_updateFunc]
  by_cases h : n = t
  · subst h
    rw [if_pos rfl]
    cases lookupFn m n <;> rfl
  · rw [if_neg h]

theorem lookupFn_isSome_pushCalledBy (m : FunctionsMap) (t c n : String) :
    (lookupFn (pushCalledBy m t c) n).isSome = (lookupFn m n).isSome :=
  lookupFn_isSome_updateFunc m t _ n

theorem lookupFn_isSome_pushSignalledBy (m : FunctionsMap) (t fn ev n : String) :
    (lookupFn (pushSignalledBy m t fn ev) n).isSome = (lookupFn m n).isSome :=
  lookupFn_isSome_updateFunc m t _ n

theorem lookupFn_isSome_setCalledByItself (m : FunctionsMap) (t n : String) :
    (lookupFn (setCalledByItself m t) n).isSome = (lookupFn m n).isSome :=
  lookupFn_isSome_updateFunc m t _ n

theorem lookupFn_isSome_startNewOrchestrationPass (env : Env) (others : List FuncCode)
    (orch : FuncCode) (m : FunctionsMap) (n : String) :
    (lookupFn (startNewOrchestrationPass env others orch m) n).isSome
      = (lookupFn m n).isSome :=
  foldl_fix (fun fs => (lookupFn fs n).isSome) _ others m (fun acc a _ => by
    by_cases hc : env.startNewOrchestrationMatches orch.name a.code = true
    · rw [if_pos hc]; exact lookupFn_isSome_pushCalledBy _ _ _ _
    · rw [if_neg hc])

theorem lookupFn_isSome_subOrchestratorPass (env : Env) (orchs : List FuncCode)
    (orch : FuncCode) (m : FunctionsMap) (n : String) :
    (lookupFn (subOrchestratorPass env orchs orch m) n).isSome
      = (lookupFn m n).isSome :=
  foldl_fix (fun fs => (lookupFn fs n).isSome) _ orchs m (fun acc a _ => by
    by_cases he : (orch.name == a.name) = true
    · rw [if_pos he]
    · rw [if_neg he]
      by_cases hc : env.callSubOrchestratorMatches a.name orch.code = true
      · rw [if_pos hc]; exact lookupFn_isSome_pushCalledBy _ _ _ _
      · rw [if_neg hc])

theorem lookupFn_isSome_mapActivities (env : Env) (m : FunctionsMap) (orch : FuncCode)
    (acts : List String) (n : String) :
    (lookupFn (mapActivitiesToOrchestrator env m orch acts) n).isSome
      = (lookupFn m n).isSome :=
  foldl_fix (fun fs => (lookupFn fs n).isSome) _ acts m (fun acc a _ => by
    by_cases hc : env.callActivityMatches a orch.code = true
    · rw [if_pos hc]; exact lookupFn_isSome_pushCalledBy _ _ _ _
    · rw [if_neg hc])

theorem lookupFn_isSome_continueAsNewPass (env : Env) (orch : FuncCode)
    (m : FunctionsMap) (n : String) :
    (lookupFn (continueAsNewPass env orch m) n).isSome = (lookupFn m n).isSome := by
  unfold continueAsNewPass
  by_cases hc : env.continueAsNewMatches orch.code = true
  · rw [if_pos hc, lookupFn_isSome_setCalledByItself]
  · rw [if_neg hc]

theorem lookupFn_isSome_signalPass (env : Env) (others : List FuncCode)
    (orch : FuncCode) (m : FunctionsMap) (n : String) :
    (lookupFn (signalPass env others orch m) n).isSome = (lookupFn m n).isSome :=
  foldl_fix (fun fs => (lookupFn fs n).isSome) _ (getEventNames env orch.code) m
    (fun acc e _ =>
      foldl_fix (fun fs => (lookupFn fs n).isSome) _ others acc (fun acc2 a _ => by
        by_cases hc : env.raiseEventMatches e a.code = true
        · rw [if_pos hc]; exact lookupFn_isSome_pushSignalledBy _ _ _ _ _
        · rw [if_neg hc]))

theorem lookupFn_isSome_processOrchestrator (env : Env) (orchs others : List FuncCode)
    (acts : List String) (m : FunctionsMap) (o : FuncCode) (n : String) :
    (lookupFn (processOrchestrator env orchs others acts m o) n).isSome
      = (lookupFn m n).isSome := by
  unfold processOrchestrator
  rw [lookupFn_isSome_signalPass, lookupFn_isSome_continueAsNewPass,
    lookupFn_isSome_mapActivities, lookupFn_isSome_subOrchestratorPass,
    lookupFn_isSome_startNewOrchestrationPass]

theorem lookupFn_isSome_entityPass (env : Env) (entities others : List FuncCode)
    (m : FunctionsMap) (n : String) :
    (lookupFn (entityPass env entities others m) n).isSome = (lookupFn m n).isSome :=
  foldl_fix (fun fs => (lookupFn fs n).isSome) _ entities m
    (fun acc e _ =>
      foldl_fix (fun fs => (lookupFn fs n).isSome) _ others acc (fun acc2 a _ => by
        by_cases hc : env.signalEntityMatches e.name a.code = true
        · rw [if_pos hc]; exact lookupFn_isSome_pushCalledBy _ _ _ _
        · rw [if_neg hc]))

theorem calledByItselfAt_startNewOrchestrationPass (env : Env) (others : List FuncCode)
    (orch : FuncCode) (m : FunctionsMap) (n : String) :
    calledByItselfAt (startNewOrchestrationPass env others orch m) n
      = calledByItselfAt m n :=
  foldl_fix (fun fs => calledByItselfAt fs n) _ others m (fun acc a _ => by
    by_cases hc : env.startNewOrchestrationMatches orch.name a.code = true
    · rw [if_pos hc]; exact calledByItselfAt_pushCalledBy _ _ _ _
    · rw [if_neg hc])

theorem calledByItselfAt_subOrchestratorPass (env : Env) (orchs : List FuncCode)
    (orch : FuncCode) (m : FunctionsMap) (n : String) :
    calledByItselfAt (subOrchestratorPass env orchs orch m) n = calledByItselfAt m n :=
  foldl_fix (fun fs => calledByItselfAt fs n) _ orchs m (fun acc a _ => by
    by_cases he : (orch.name == a.name) = true
    · rw [if_pos he]
    · rw [if_neg he]
      by_cases hc : env.callSubOrchestratorMatches a.name orch.code = true
      · rw [if_pos hc]; exact calledByItselfAt_pushCalledBy _ _ _ _
      · rw [if_neg hc])

theorem calledByItselfAt_mapActivities (env : Env) (m : FunctionsMap) (orch : FuncCode)
    (acts : List String) (n : String) :
    calledByItselfAt (mapActivitiesToOrchestrator env m orch acts) n
      = calledByItselfAt m n :=
  foldl_fix (fun fs => calledByItselfAt fs n) _ acts m (fun acc a _ => by
    by_cases hc : env.callActivityMatches a orch.code = true
    · rw [if_pos hc]; exact calledByItselfAt_pushCalledBy _ _ _ _
    · rw [if_neg hc])

theorem calledByItselfAt_signalPass (env : Env) (others : List FuncCode)
    (orch : FuncCode) (m : FunctionsMap) (n : String) :
    calledByItselfAt (signalPass env others orch m) n = calledByItselfAt m n :=
  foldl_fix (fun fs => calledByItselfAt fs n) _ (getEventNames env orch.code) m
    (fun acc e _ =>
      foldl_fix (fun fs => calledByItselfAt fs n) _ others acc (fun acc2 a _ => by
        by_cases hc : env.raiseEventMatches e a.code = true
        · rw [if_pos hc]; exact calledByItselfAt_pushSignalledBy _ _ _ _ _
        · rw [if_neg hc]))

theorem calledByItselfAt_entityPass (env : Env) (entities others : List FuncCode)
    (m : FunctionsMap) (n : String) :
    calledByItselfAt (entityPass env entities others m) n = calledByItselfAt m n :=
  foldl_fix (fun fs => calledByItselfAt fs n) _ entities m
    (fun acc e _ =>
      foldl_fix (fun fs => calledByItselfAt fs n) _ others acc (fun acc2 a _ => by
        by_cases hc : env.signalEntityMatches e.name a.code = true
        · rw [if_pos hc]; exact calledByItselfAt_pushCalledBy _ _ _ _
        · rw [if_neg hc]))

theorem calledByItselfAt_bindingEnrichmentPass (env : Env) (funcs : List FuncCode)
    (m : FunctionsMap) (n : String) :
    calledByItselfAt (bindingEnrichmentPass env funcs m) n = calledByItselfAt m n :=
  foldl_fix (fun fs => calledByItselfAt fs n) _ funcs m
    (fun acc a _ => calledByItselfAt_updateFunc acc a.name _ n (fun _ => rfl))

theorem calledByItselfAt_filePathPass (funcs : List FuncCode) (m : FunctionsMap) (n : String) :
    calledByItselfAt (filePathPass funcs m) n = calledByItselfAt m n :=
  foldl_fix (fun fs => calledByItselfAt fs n) _ funcs m
    (fun acc a _ => calledByItselfAt_updateFunc acc a.name _ n (fun _ => rfl))

theorem calledByItselfAt_continueAsNewPass_ne (env : Env) (orch : FuncCode)
    (m : FunctionsMap) (n : String) (h : n ≠ orch.name) :
    calledByItselfAt (continueAsNewPass env orch m) n = calledByItselfAt m n := by
  unfold continueAsNewPass
  by_cases hc : env.continueAsNewMatches orch.code = true
  · rw [if_pos hc, calledByItselfAt_setCalledByItself_ne m orch.name n h]
  · rw [if_neg hc]

theorem calledByItselfAt_continueAsNewPass_self (env : Env) (orch : FuncCode)
    (m : FunctionsMap) (hk : (lookupFn m orch.name).isSome) :
    calledByItselfAt (continueAsNewPass env orch m) orch.name
      = (env.continueAsNewMatches orch.code || calledByItselfAt m orch.name) := by
  unfold continueAsNewPass
  by_cases hc : env.continueAsNewMatches orch.code = true
  · rw [if_pos hc, hc, calledByItselfAt_setCalledByItself_self m orch.name hk, Bool.true_or]
  · have hc' : env.continueAsNewMatches orch.code = false := by
      cases hx : env.continueAsNewMatches orch.code
      · rfl
      · exact absurd hx hc
    rw [if_neg hc, hc', Bool.false_or]

theorem calledByItselfAt_processOrchestrator_ne (env : Env) (orchs others : List FuncCode)
    (acts : List String) (m : FunctionsMap) (o : FuncCode) (n : String) (h : n ≠ o.name) :
    calledByItselfAt (processOrchestrator env orchs others acts m o) n
      = calledByItselfAt m n := by
  unfold processOrchestrator
  rw [calledByItselfAt_signalPass, calledByItselfAt_continueAsNewPass_ne env o _ n h,
    calledByItselfAt_mapActivities, calledByItselfAt_subOrchestratorPass,
    calledByItselfAt_startNewOrchestrationPass]

theorem calledByItselfAt_processOrchestrator_self (env : Env) (orchs others : List FuncCode)
    (acts : List String) (m : FunctionsMap) (o : FuncCode)
    (hk : (lookupFn m o.name).isSome) :
    calledByItselfAt (processOrchestrator env orchs others acts m o) o.name
      = (env.continueAsNewMatches o.code || calledByItselfAt m o.name) := by
  unfold processOrchestrator
  rw [calledByItselfAt_signalPass,
    calledByItselfAt_continueAsNewPass_self env o _
      (by rw [lookupFn_isSome_mapActivities, lookupFn_isSome_subOrchestratorPass,
              lookupFn_isSome_startNewOrchestrationPass]; exact hk),
    calledByItselfAt_mapActivities, calledByItselfAt_subOrchestratorPass,
    calledByItselfAt_startNewOrchestrationPass]

theorem calledByItselfAt_foldl_processOrchestrator_ne (env : Env)
    (orchs others : List FuncCode) (acts : List String) (l : List FuncCode)
    (m : FunctionsMap) (n : String) (h : ∀ a ∈ l, n ≠ a.name) :
    calledByItselfAt (l.foldl (processOrchestrator env orchs others acts) m) n
      = calledByItselfAt m n := by
  induction l generalizing m with
  | nil => rfl
  | cons hd tl ih =>
    rw [List.foldl_cons, ih _ (fun a ha => h a (List.mem_cons_of_mem _ ha)),
      calledByItselfAt_processOrchestrator_ne env orchs others acts m hd n
        (h hd (List.mem_cons_self _ _))]

theorem lookupFn_isSome_foldl_processOrchestrator (env : Env)
    (orchs others : List FuncCode) (acts : List String) (l : List FuncCode)
    (m : FunctionsMap) (n : String) :
    (lookupFn (l.foldl (processOrchestrator env orchs others acts) m) n).isSome
      = (lookupFn m n).isSome := by
  induction l generalizing m with
  | nil => rfl
  | cons hd tl ih =>
    rw [List.foldl_cons, ih, lookupFn_isSome_processOrchestrator]

theorem calledByItselfAt_orchLoop (env : Env) (orchs others : List FuncCode)
    (acts : List String) (functions : FunctionsMap) (orch : FuncCode)
    (hmem : orch ∈ orchs)
    (hnames : (orchs.map (fun fc => fc.name)).Nodup)
    (hk : (lookupFn functions orch.name).isSome)
    (hinit : calledByItselfAt functions orch.name = false) :
    calledByItselfAt (orchs.foldl (processOrchestrator env orchs others acts) functions) orch.name
      = env.continueAsNewMatches orch.code := by
  obtain ⟨l1, l2, rfl⟩ := List.append_of_mem hmem
  rw [List.map_append, List.map_cons] at hnames
  rcases List.nodup_append.mp hnames with ⟨-, hn2, hdisj⟩
  have h1 : ∀ a ∈ l1, orch.name ≠ a.name := by
    intro a ha he
    exact hdisj (by rw [he]; exact List.mem_map_of_mem _ ha) (List.mem_cons_self _ _)
  have h2 : ∀ a ∈ l2, orch.name ≠ a.name := by
    intro a ha he
    exact (List.nodup_cons.mp hn2).1 (by rw [he]; exact List.mem_map_of_mem _ ha)
  rw [List.foldl_append, List.foldl_cons]
  rw [calledByItselfAt_foldl_processOrchestrator_ne env _ others acts l2 _ orch.name h2]
  rw [calledByItselfAt_processOrchestrator_self env _ others acts _ orch
    (by rw [lookupFn_isSome_foldl_processOrchestrator]; exact hk)]
  rw [calledByItselfAt_foldl_processOrchestrator_ne env _ others acts l1 functions orch.name h1,
    hinit, Bool.or_false]

/-- C3: for every orchestrator whose code body was located, the traversal
result's `isCalledByItself` equals whether the continue-as-new pattern
matches that body — `true` when it matches, and still the initial `false`
(the field is never assigned) when it does not. -/
theorem c3_isCalledByItself (env : Env) (functions : FunctionsMap) (pf hf : String)
    (orch : FuncCode)
    (hnd : (keysOf functions).Nodup)
    (horch : orch ∈ orchestratorsOf env functions pf hf)
    (hinit : calledByItselfAt functions orch.name = false) :
    calledByItselfAt (mapOrchestratorsAndActivitiesAsync env functions pf hf) orch.name
      = env.continueAsNewMatches orch.code := by
  have hnameO : orch.name ∈ orchestratorNamesOf functions :=
    mem_getFunctions_name env (orchestratorNamesOf functions) (projectKindOf env pf) pf hf orch horch
  have hkeys : orch.name ∈ keysOf functions := List.mem_of_mem_filter hnameO
  have hnames : ((orchestratorsOf env functions pf hf).map (fun fc => fc.name)).Nodup := by
    have hsub := names_getFunctions_sublist env (orchestratorNamesOf functions)
      (projectKindOf env pf) pf hf
    exact List.Nodup.sublist hsub (List.Nodup.filter _ hnd)
  unfold mapOrchestratorsAndActivitiesAsync
  rw [calledByItselfAt_filePathPass]
  by_cases hdk : (projectKindOf env pf == ProjectKind.dotNet) = true
  · rw [if_pos hdk, calledByItselfAt_bindingEnrichmentPass, calledByItselfAt_entityPass]
    exact calledByItselfAt_orchLoop env _ _ _ functions orch horch hnames
      (lookupFn_isSome_of_mem_keys functions orch.name hkeys) hinit
  · rw [if_neg hdk, calledByItselfAt_entityPass]
    exact calledByItselfAt_orchLoop env _ _ _ functions orch horch hnames
      (lookupFn_isSome_of_mem_keys functions orch.name hkeys) hinit

theorem calledByAt_continueAsNewPass (env : Env) (orch : FuncCode) (m : FunctionsMap)
    (n : String) :
    calledByAt (continueAsNewPass env orch m) n = calledByAt m n := by
  unfold continueAsNewPass
  by_cases hc : env.continueAsNewMatches orch.code = true
  · rw [if_pos hc]
    exact calledByAt_setCalledByItself m orch.name n
  · rw [if_neg hc]

theorem calledByAt_signalInner (env : Env) (others : List FuncCode) (orchName e : String)
    (m : FunctionsMap) (n : String) :
    calledByAt (others.foldl
      (fun fs2 func =>
        if env.raiseEventMatches e func.code then
          pushSignalledBy fs2 orchName func.name e
        else fs2) m) n = calledByAt m n := by
  induction others generalizing m with
  | nil => rfl
  | cons hd tl ih =>
    rw [List.foldl_cons]
    by_cases hc : env.raiseEventMatches e hd.code = true
    · rw [if_pos hc, ih, calledByAt_pushSignalledBy]
    · rw [if_neg hc, ih]

theorem calledByAt_signalPass (env : Env) (others : List FuncCode) (orch : FuncCode)
    (m : FunctionsMap) (n : String) :
    calledByAt (signalPass env others orch m) n = calledByAt m n := by
  unfold signalPass
  generalize getEventNames env orch.code = evs
  induction evs generalizing m with
  | nil => rfl
  | cons e tl ih =>
    rw [List.foldl_cons, ih, calledByAt_signalInner]

theorem calledByAt_bindingEnrichmentPass (env : Env) (funcs : List FuncCode)
    (m : FunctionsMap) (n : String) :
    calledByAt (bindingEnrichmentPass env funcs m) n = calledByAt m n := by
  unfold bindingEnrichmentPass
  induction funcs generalizing m with
  | nil => rfl
  | cons hd tl ih =>
    rw [List.foldl_cons, ih]
    exact calledByAt_updateFunc _ _ _ _ (fun _ => rfl)

theorem calledByAt_filePathPass (funcs : List FuncCode) (m : FunctionsMap) (n : String) :
    calledByAt (filePathPass funcs m) n = calledByAt m n := by
  unfold filePathPass
  induction funcs generalizing m with
  | nil => rfl
  | cons hd tl ih =>
    rw [List.foldl_cons, ih]
    exact calledByAt_updateFunc _ _ _ _ (fun _ => rfl)

theorem mem_calledByAt_startNewOrchestrationPass (env : Env) (others : List FuncCode)
    (orch : FuncCode) (m : FunctionsMap) (n x : String) (hx : x ∈ calledByAt m n) :
    x ∈ calledByAt (startNewOrchestrationPass env others orch m) n := by
  unfold startNewOrchestrationPass
  induction others generalizing m with
  | nil => exact hx
  | cons hd tl ih =>
    rw [List.foldl_cons]
    apply ih
    by_cases hc : env.startNewOrchestrationMatches orch.name hd.code = true
    · rw [if_pos hc]
      exact mem_calledByAt_pushCalledBy _ _ _ _ _ hx
    · rw [if_neg hc]
      exact hx

theorem mem_calledByAt_subOrchestratorPass (env : Env) (orchs : List FuncCode)
    (orch : FuncCode) (m : FunctionsMap) (n x : String) (hx : x ∈ calledByAt m n) :
    x ∈ calledByAt (subOrchestratorPass env orchs orch m) n := by
  unfold subOrchestratorPass
  induction orchs generalizing m with
  | nil => exact hx
  | cons hd tl ih =>
    rw [List.foldl_cons]
    apply ih
    by_cases he : (orch.name == hd.name) = true
    · rw [if_pos he]
      exact hx
    · rw [if_neg he]
      by_cases hc : env.callSubOrchestratorMatches hd.name orch.code = true
      · rw [if_pos hc]
        exact mem_calledByAt_pushCalledBy _ _ _ _ _ hx
      · rw [if_neg hc]
        exact hx

theorem mem_calledByAt_mapActivitiesFold (env : Env) (orch : FuncCode) (l : List String)
    (m : FunctionsMap) (n x : String) (hx : x ∈ calledByAt m n) :
    x ∈ calledByAt (l.foldl
      (fun fs activityName =>
        if env.callActivityMatches activityName orch.code then
          pushCalledBy fs activityName orch.name
        else fs) m) n := by
  induction l generalizing m with
  | nil => exact hx
  | cons hd tl ih =>
    rw [List.foldl_cons]
    apply ih
    by_cases hc : env.callActivityMatches hd orch.code = true
    · rw [if_pos hc]
      exact mem_calledByAt_pushCalledBy _ _ _ _ _ hx
    · rw [if_neg hc]
      exact hx

theorem lookupFn_isSome_mapActivitiesFold (env : Env) (orch : FuncCode) (l : List String)
    (m : FunctionsMap) (n : String) :
    (lookupFn (l.foldl
      (fun fs activityName =>
        if env.callActivityMatches activityName orch.code then
          pushCalledBy fs activityName orch.name
        else fs) m) n).isSome = (lookupFn m n).isSome := by
  induction l generalizing m with
  | nil => rfl
  | cons hd tl ih =>
    rw [List.foldl_cons]
    rw [ih]
    by_cases hc : env.callActivityMatches hd orch.code = true
    · rw [if_pos hc, lookupFn_isSome_pushCalledBy]
    · rw [if_neg hc]

theorem mem_calledByAt_mapActivities (env : Env) (m : FunctionsMap) (orch : FuncCode)
    (acts : List String) (n x : String) (hx : x ∈ calledByAt m n) :
    x ∈ calledByAt (mapActivitiesToOrchestrator env m orch acts) n := by
  unfold mapActivitiesToOrchestrator
  exact mem_calledByAt_mapActivitiesFold env orch acts m n x hx

theorem mem_calledByAt_mapActivities_self (env : Env) (m : FunctionsMap) (orch : FuncCode)
    (acts : List String) (A : String) (hA : A ∈ acts)
    (hk : (lookupFn m A).isSome)
    (hmatch : env.callActivityMatches A orch.code = true) :
    orch.name ∈ calledByAt (mapActivitiesToOrchestrator env m orch acts) A := by
  unfold mapActivitiesToOrchestrator
  obtain ⟨s1, s2, rfl⟩ := List.append_of_mem hA
  rw [List.foldl_append, List.foldl_cons, if_pos hmatch]
  apply mem_calledByAt_mapActivitiesFold
  rw [calledByAt_pushCalledBy_self _ _ _
    (by rw [lookupFn_isSome_mapActivitiesFold]; exact hk)]
  exact List.mem_append_right _ (by simp)

theorem mem_calledByAt_processOrchestrator (env : Env) (orchs others : List FuncCode)
    (acts : List String) (m : FunctionsMap) (o : FuncCode) (n x : String)
    (hx : x ∈ calledByAt m n) :
    x ∈ calledByAt (processOrchestrator env orchs others acts m o) n := by
  unfold processOrchestrator
  rw [calledByAt_signalPass, calledByAt_continueAsNewPass]
  exact mem_calledByAt_mapActivities env _ o acts n x
    (mem_calledByAt_subOrchestratorPass env orchs o _ n x
      (mem_calledByAt_startNewOrchestrationPass env others o m n x hx))

theorem mem_calledByAt_foldl_processOrchestrator (env : Env) (orchs others : List FuncCode)
    (acts : List String) (l : List FuncCode) (m : FunctionsMap) (n x : String)
    (hx : x ∈ calledByAt m n) :
    x ∈ calledByAt (l.foldl (processOrchestrator env orchs others acts) m) n := by
  induction l generalizing m with
  | nil => exact hx
  | cons hd tl ih =>
    rw [List.foldl_cons]
    exact ih _ (mem_calledByAt_processOrchestrator env orchs others acts m hd n x hx)

theorem mem_calledByAt_processOrchestrator_activity (env : Env)
    (orchs others : List FuncCode) (acts : List String) (m : FunctionsMap)
    (orch : FuncCode) (A : String) (hA : A ∈ acts)
    (hk : (lookupFn m A).isSome)
    (hmatch : env.callActivityMatches A orch.code = true) :
    orch.name ∈ calledByAt (processOrchestrator env orchs others acts m orch) A := by
  unfold processOrchestrator
  rw [calledByAt_signalPass, calledByAt_continueAsNewPass]
  exact mem_calledByAt_mapActivities_self env _ orch acts A hA
    (by rw [lookupFn_isSome_subOrchestratorPass, lookupFn_isSome_startNewOrchestrationPass]
        exact hk)
    hmatch

theorem mem_calledByAt_entityInner (env : Env) (others : List FuncCode)
    (entityName : String) (m : FunctionsMap) (n x : String) (hx : x ∈ calledByAt m n) :
    x ∈ calledByAt (others.foldl
      (fun fs2 func =>
        if env.signalEntityMatches entityName func.code then
          pushCalledBy fs2 entityName func.name
        else fs2) m) n := by
  induction others generalizing m with
  | nil => exact hx
  | cons hd tl ih =>
    rw [List.foldl_cons]
    apply ih
    by_cases hc : env.signalEntityMatches entityName hd.code = true
    · rw [if_pos hc]
      exact mem_calledByAt_pushCalledBy _ _ _ _ _ hx
    · rw [if_neg hc]
      exact hx

theorem mem_calledByAt_entityPass (env : Env) (entities others : List FuncCode)
    (m : FunctionsMap) (n x : String) (hx : x ∈ calledByAt m n) :
    x ∈ calledByAt (entityPass env entities others m) n := by
  unfold entityPass
  induction entities generalizing m with
  | nil => exact hx
  | cons hd tl ih =>
    rw [List.foldl_cons]
    exact ih _ (mem_calledByAt_entityInner env others hd.name m n x hx)

theorem mem_calledByAt_orchLoop_activity (env : Env) (orchs others : List FuncCode)
    (acts : List String) (functions : FunctionsMap) (orch : FuncCode) (A : String)
    (hmem : orch ∈ orchs) (hA : A ∈ acts)
    (hk : (lookupFn functions A).isSome)
    (hmatch : env.callActivityMatches A orch.code = true) :
    orch.name ∈ calledByAt (orchs.foldl (processOrchestrator env orchs others acts) functions) A := by
  obtain ⟨l1, l2, rfl⟩ := List.append_of_mem hmem
  rw [List.foldl_append, List.foldl_cons]
  apply mem_calledByAt_foldl_processOrchestrator
  exact mem_calledByAt_processOrchestrator_activity env _ others acts _ orch A hA
    (by rw [lookupFn_isSome_foldl_processOrchestrator]; exact hk) hmatch

/-- C4: for every located orchestrator and every activity name whose
call-activity pattern matches the orchestrator's code body, the
orchestrator's name ends up in that activity's `isCalledBy` list of the
traversal result. -/
theorem c4_callActivity (env : Env) (functions : FunctionsMap) (pf hf : String)
    (orch : FuncCode) (A : String)
    (horch : orch ∈ orchestratorsOf env functions pf hf)
    (hA : A ∈ activityNamesOf functions)
    (hmatch : env.callActivityMatches A orch.code = true) :
    orch.name ∈ calledByAt (mapOrchestratorsAndActivitiesAsync env functions pf hf) A := by
  have hkeys : A ∈ keysOf functions := List.mem_of_mem_filter hA
  have hk := lookupFn_isSome_of_mem_keys functions A hkeys
  unfold mapOrchestratorsAndActivitiesAsync
  rw [calledByAt_filePathPass]
  by_cases hdk : (projectKindOf env pf == ProjectKind.dotNet) = true
  · rw [if_pos hdk, calledByAt_bindingEnrichmentPass]
    apply mem_calledByAt_entityPass
    exact mem_calledByAt_orchLoop_activity env _ _ _ functions orch A horch hA hk hmatch
  · rw [if_neg hdk]
    apply mem_calledByAt_entityPass
    exact mem_calledByAt_orchLoop_activity env _ _ _ functions orch A horch hA hk hmatch

theorem signalledByAt_startNewOrchestrationPass (env : Env) (others : List FuncCode)
    (orch : FuncCode) (m : FunctionsMap) (n : String) :
    signalledByAt (startNewOrchestrationPass env others orch m) n = signalledByAt m n := by
  unfold startNewOrchestrationPass
  induction others generalizing m with
  | nil => rfl
  | cons hd tl ih =>
    rw [List.foldl_cons]
    by_cases hc : env.startNewOrchestrationMatches orch.name hd.code = true
    · rw [if_pos hc, ih, signalledByAt_pushCalledBy]
    · rw [if_neg hc, ih]

theorem signalledByAt_subOrchestratorPass (env : Env) (orchs : List FuncCode)
    (orch : FuncCode) (m : FunctionsMap) (n : String) :
    signalledByAt (subOrchestratorPass env orchs orch m) n = signalledByAt m n := by
  unfold subOrchestratorPass
  induction orchs generalizing m with
  | nil => rfl
  | cons hd tl ih =>
    rw [List.foldl_cons]
    by_cases he : (orch.name == hd.name) = true
    · rw [if_pos he, ih]
    · rw [if_neg he]
      by_cases hc : env.callSubOrchestratorMatches hd.name orch.code = true
      · rw [if_pos hc, ih, signalledByAt_pushCalledBy]
      · rw [if_neg hc, ih]

theorem signalledByAt_mapActivities (env : Env) (m : FunctionsMap) (orch : FuncCode)
    (acts : List String) (n : String) :
    signalledByAt (mapActivitiesToOrchestrator env m orch acts) n = signalledByAt m n := by
  unfold mapActivitiesToOrchestrator
  induction acts generalizing m with
  | nil => rfl
  | cons hd tl ih =>
    rw [List.foldl_cons]
    by_cases hc : env.callActivityMatches hd orch.code = true
    · rw [if_pos hc, ih, signalledByAt_pushCalledBy]
    · rw [if_neg hc, ih]

theorem signalledByAt_continueAsNewPass (env : Env) (orch : FuncCode) (m : FunctionsMap)
    (n : String) :
    signalledByAt (continueAsNewPass env orch m) n = signalledByAt m n := by
  unfold continueAsNewPass
  by_cases hc : env.continueAsNewMatches orch.code = true
  · rw [if_pos hc]
    exact signalledByAt_setCalledByItself m orch.name n
  · rw [if_neg hc]

theorem signalledByAt_entityInner (env : Env) (others : List FuncCode)
    (entityName : String) (m : FunctionsMap) (n : String) :
    signalledByAt (others.foldl
      (fun fs2 func =>
        if env.signalEntityMatches entityName func.code then
          pushCalledBy fs2 entityName func.name
        else fs2) m) n = signalledByAt m n := by
  induction others generalizing m with
  | nil => rfl
  | cons hd tl ih =>
    rw [List.foldl_cons]
    by_cases hc : env.signalEntityMatches entityName hd.code = true
    · rw [if_pos hc, ih, signalledByAt_pushCalledBy]
    · rw [if_neg hc, ih]

theorem signalledByAt_entityPass (env : Env) (entities others : List FuncCode)
    (m : FunctionsMap) (n : String) :
    signalledByAt (entityPass env entities others m) n = signalledByAt m n := by
  unfold entityPass
  induction entities generalizing m with
  | nil => rfl
  | cons hd tl ih =>
    rw [List.foldl_cons, ih, signalledByAt_entityInner]

theorem signalledByAt_bindingEnrichmentPass (env : Env) (funcs : List FuncCode)
    (m : FunctionsMap) (n : String) :
    signalledByAt (bindingEnrichmentPass env funcs m) n = signalledByAt m n := by
  unfold bindingEnrichmentPass
  induction funcs generalizing m with
  | nil => rfl
  | cons hd tl ih =>
    rw [List.foldl_cons, ih]
    exact signalledByAt_updateFunc _ _ _ _ (fun _ => rfl)

theorem signalledByAt_filePathPass (funcs : List FuncCode) (m : FunctionsMap) (n : String) :
    signalledByAt (filePathPass funcs m) n = signalledByAt m n := by
  unfold filePathPass
  induction funcs generalizing m with
  | nil => rfl
  | cons hd tl ih =>
    rw [List.foldl_cons, ih]
    exact signalledByAt_updateFunc _ _ _ _ (fun _ => rfl)

theorem lookupFn_isSome_signalInner (env : Env) (others : List FuncCode)
    (orchName e : String) (m : FunctionsMap) (n : String) :
    (lookupFn (others.foldl
      (fun fs2 func =>
        if env.raiseEventMatches e func.code then
          pushSignalledBy fs2 orchName func.name e
        else fs2) m) n).isSome = (lookupFn m n).isSome := by
  induction others generalizing m with
  | nil => rfl
  | cons hd tl ih =>
    rw [List.foldl_cons, ih]
    by_cases hc : env.raiseEventMatches e hd.code = true
    · rw [if_pos hc, lookupFn_isSome_pushSignalledBy]
    · rw [if_neg hc]

theorem signalledByAt_signalInner_self (env : Env) (others : List FuncCode)
    (orchName e : String) (m : FunctionsMap)
    (hk : (lookupFn m orchName).isSome) :
    signalledByAt (others.foldl
      (fun fs2 func =>
        if env.raiseEventMatches e func.code then
          pushSignalledBy fs2 orchName func.name e
        else fs2) m) orchName
      = signalledByAt m orchName
        ++ others.filterMap (fun func =>
            if env.raiseEventMatches e func.code = true then
              some ⟨func.name, e⟩
            else none) := by
  induction others generalizing m with
  | nil => simp
  | cons hd tl ih =>
    rw [List.foldl_cons]
    by_cases hc : env.raiseEventMatches e hd.code = true
    · rw [if_pos hc,
        ih _ (by rw [lookupFn_isSome_pushSignalledBy]; exact hk),
        signalledByAt_pushSignalledBy_self m orchName hd.name e hk,
        @List.filterMap_cons_some FuncCode SignalledByEntry
          (fun func => if env.raiseEventMatches e func.code = true then
            some ⟨func.name, e⟩ else none) hd tl ⟨hd.name, e⟩ (if_pos hc),
        List.append_assoc, List.singleton_append]
    · rw [if_neg hc,
        @List.filterMap_cons_none FuncCode SignalledByEntry
          (fun func => if env.raiseEventMatches e func.code = true then
            some ⟨func.name, e⟩ else none) hd tl (if_neg hc),
        ih m hk]

theorem signalledByAt_signalInner_ne (env : Env) (others : List FuncCode)
    (orchName e : String) (m : FunctionsMap) (n : String) (h : n ≠ orchName) :
    signalledByAt (others.foldl
      (fun fs2 func =>
        if env.raiseEventMatches e func.code then
          pushSignalledBy fs2 orchName func.name e
        else fs2) m) n = signalledByAt m n := by
  induction others generalizing m with
  | nil => rfl
  | cons hd tl ih =>
    rw [List.foldl_cons]
    by_cases hc : env.raiseEventMatches e hd.code = true
    · rw [if_pos hc, ih, signalledByAt_pushSignalledBy_ne m orchName hd.name e n h]
    · rw [if_neg hc, ih]

theorem signalledByAt_signalPass_self (env : Env) (others : List FuncCode)
    (orch : FuncCode) (m : FunctionsMap)
    (hk : (lookupFn m orch.name).isSome) :
    signalledByAt (signalPass env others orch m) orch.name
      = signalledByAt m orch.name
        ++ (getEventNames env orch.code).flatMap
            (fun e => others.filterMap (fun func =>
              if env.raiseEventMatches e func.code = true then
                some ⟨func.name, e⟩
              else none)) := by
  unfold signalPass
  generalize getEventNames env orch.code = evs
  induction evs generalizing m with
  | nil => simp
  | cons e tl ih =>
    rw [List.foldl_cons, List.flatMap_cons,
      ih _ (by rw [lookupFn_isSome_signalInner]; exact hk),
      signalledByAt_signalInner_self env others orch.name e m hk, List.append_assoc]

theorem signalledByAt_signalPass_ne (env : Env) (others : List FuncCode)
    (orch : FuncCode) (m : FunctionsMap) (n : String) (h : n ≠ orch.name) :
    signalledByAt (signalPass env others orch m) n = signalledByAt m n := by
  unfold signalPass
  generalize getEventNames env orch.code = evs
  induction evs generalizing m with
  | nil => rfl
  | cons e tl ih =>
    rw [List.foldl_cons, ih, signalledByAt_signalInner_ne env others orch.name e m n h]

theorem signalledByAt_processOrchestrator_ne (env : Env) (orchs others : List FuncCode)
    (acts : List String) (m : FunctionsMap) (o : FuncCode) (n : String) (h : n ≠ o.name) :
    signalledByAt (processOrchestrator env orchs others acts m o) n = signalledByAt m n := by
  unfold processOrchestrator
  rw [signalledByAt_signalPass_ne env others o _ n h, signalledByAt_continueAsNewPass,
    signalledByAt_mapActivities, signalledByAt_subOrchestratorPass,
    signalledByAt_startNewOrchestrationPass]

theorem signalledByAt_processOrchestrator_self (env : Env) (orchs others : List FuncCode)
    (acts : List String) (m : FunctionsMap) (o : FuncCode)
    (hk : (lookupFn m o.name).isSome) :
    signalledByAt (processOrchestrator env orchs others acts m o) o.name
      = signalledByAt m o.name
        ++ (getEventNames env o.code).flatMap
            (fun e => others.filterMap (fun func =>
              if env.raiseEventMatches e func.code = true then
                some ⟨func.name, e⟩
              else none)) := by
  unfold processOrchestrator
  rw [signalledByAt_signalPass_self env others o _
      (by rw [lookupFn_isSome_continueAsNewPass, lookupFn_isSome_mapActivities,
              lookupFn_isSome_subOrchestratorPass, lookupFn_isSome_startNewOrchestrationPass]
          exact hk),
    signalledByAt_continueAsNewPass, signalledByAt_mapActivities,
    signalledByAt_subOrchestratorPass, signalledByAt_startNewOrchestrationPass]

theorem signalledByAt_foldl_processOrchestrator_ne (env : Env)
    (orchs others : List FuncCode) (acts : List String) (l : List FuncCode)
    (m : FunctionsMap) (n : String) (h : ∀ a ∈ l, n ≠ a.name) :
    signalledByAt (l.foldl (processOrchestrator env orchs others acts) m) n
      = signalledByAt m n := by
  induction l generalizing m with
  | nil => rfl
  | cons hd tl ih =>
    rw [List.foldl_cons, ih _ (fun a ha => h a (List.mem_cons_of_mem _ ha)),
      signalledByAt_processOrchestrator_ne env orchs others acts m hd n
        (h hd (List.mem_cons_self _ _))]

theorem signalledByAt_orchLoop (env : Env) (orchs others : List FuncCode)
    (acts : List String) (functions : FunctionsMap) (orch : FuncCode)
    (hmem : orch ∈ orchs)
    (hnames : (orchs.map (fun fc => fc.name)).Nodup)
    (hk : (lookupFn functions orch.name).isSome)
    (hinit : signalledByAt functions orch.name = []) :
    signalledByAt (orchs.foldl (processOrchestrator env orchs others acts) functions) orch.name
      = (getEventNames env orch.code).flatMap
          (fun e => others.filterMap (fun func =>
            if env.raiseEventMatches e func.code = true then
              some ⟨func.name, e⟩
            else none)) := by
  obtain ⟨l1, l2, rfl⟩ := List.append_of_mem hmem
  rw [List.map_append, List.map_cons] at hnames
  rcases List.nodup_append.mp hnames with ⟨-, hn2, hdisj⟩
  have h1 : ∀ a ∈ l1, orch.name ≠ a.name := by
    intro a ha he
    exact hdisj (by rw [he]; exact List.mem_map_of_mem _ ha) (List.mem_cons_self _ _)
  have h2 : ∀ a ∈ l2, orch.name ≠ a.name := by
    intro a ha he
    exact (List.nodup_cons.mp hn2).1 (by rw [he]; exact List.mem_map_of_mem _ ha)
  rw [List.foldl_append, List.foldl_cons,
    signalledByAt_foldl_processOrchestrator_ne env _ others acts l2 _ orch.name h2,
    signalledByAt_processOrchestrator_self env _ others acts _ orch
      (by rw [lookupFn_isSome_foldl_processOrchestrator]; exact hk),
    signalledByAt_foldl_processOrchestrator_ne env _ others acts l1 functions orch.name h1,
    hinit, List.nil_append]

/-- C9: for every located orchestrator whose `isSignalledBy` starts empty,
the traversal result's `isSignalledBy` is exactly one entry
`{name, signalName}` per collected awaited event name (every
wait-external-event match, in order) and per other function whose code
matches the raise-event pattern for that name. -/
theorem c9_isSignalledBy (env : Env) (functions : FunctionsMap) (pf hf : String)
    (orch : FuncCode)
    (hnd : (keysOf functions).Nodup)
    (horch : orch ∈ orchestratorsOf env functions pf hf)
    (hinit : signalledByAt functions orch.name = []) :
    signalledByAt (mapOrchestratorsAndActivitiesAsync env functions pf hf) orch.name
      = (getEventNames env orch.code).flatMap
          (fun e => (otherFunctionsOf env functions pf hf).filterMap (fun func =>
            if env.raiseEventMatches e func.code = true then
              some ⟨func.name, e⟩
            else none)) := by
  have hnameO : orch.name ∈ orchestratorNamesOf functions :=
    mem_getFunctions_name env (orchestratorNamesOf functions) (projectKindOf env pf) pf hf orch horch
  have hkeys : orch.name ∈ keysOf functions := List.mem_of_mem_filter hnameO
  have hnames : ((orchestratorsOf env functions pf hf).map (fun fc => fc.name)).Nodup := by
    have hsub := names_getFunctions_sublist env (orchestratorNamesOf functions)
      (projectKindOf env pf) pf hf
    exact List.Nodup.sublist hsub (List.Nodup.filter _ hnd)
  unfold mapOrchestratorsAndActivitiesAsync
  rw [signalledByAt_filePathPass]
  by_cases hdk : (projectKindOf env pf == ProjectKind.dotNet) = true
  · rw [if_pos hdk, signalledByAt_bindingEnrichmentPass, signalledByAt_entityPass]
    exact signalledByAt_orchLoop env _ _ _ functions orch horch hnames
      (lookupFn_isSome_of_mem_keys functions orch.name hkeys) hinit
  · rw [if_neg hdk, signalledByAt_entityPass]
    exact signalledByAt_orchLoop env _ _ _ functions orch horch hnames
      (lookupFn_isSome_of_mem_keys functions orch.name hkeys) hinit

/-- A small script-based test project: orchestrator `OrchA` (continues as
new, calls activity `ActB`, awaits events `E1`/`E2`), activity `ActB`, and
two plain trigger functions `F1`/`F2` raising `E1`/`E2` respectively. -/
def scenarioFunctions : FunctionsMap :=
  [("OrchA", { bindings := [⟨"orchestrationTrigger", none⟩], isCalledBy := [], isSignalledBy := [] }),
   ("ActB", { bindings := [⟨"activityTrigger", none⟩], isCalledBy := [], isSignalledBy := [] }),
   ("F1", { bindings := [⟨"httpTrigger", some "in"⟩], isCalledBy := [], isSignalledBy := [] }),
   ("F2", { bindings := [⟨"httpTrigger", some "in"⟩], isCalledBy := [], isSignalledBy := [] })]

/-- Concrete environment for the test project above. -/
def scenarioEnv : Env :=
  { cloneFromGitHub := fun _ => Except.error "offline"
    findFileRecursively := fun folder _ _ _ =>
      if folder == "hf/OrchA" then some ⟨"hf/OrchA/index.js", "codeOrchA", none, none⟩
      else if folder == "hf/ActB" then some ⟨"hf/ActB/index.js", "codeActB", none, none⟩
      else if folder == "hf/F1" then some ⟨"hf/F1/index.js", "codeF1", none, none⟩
      else if folder == "hf/F2" then some ⟨"hf/F2/index.js", "codeF2", none, none⟩
      else none
    dirname := fun p => p
    pathJoin := fun a b => a ++ "/" ++ b
    fileExists := fun _ => false
    readFile := fun _ => ""
    readdir := fun _ => []
    tryReadFunctionJson := fun _ _ => FunctionJsonOutcome.notAFunctionDir
    isDotNetIsolatedProject := fun _ => false
    isDotNetProject := fun _ => false
    isJavaProject := fun _ => false
    dotnetPublish := fun _ => Except.error "no dotnet"
    traverseJavaProject := fun _ => []
    traverseDotNetIsolatedProject := fun _ => []
    getCodeInBrackets := fun code _ _ _ _ => code
    startNewOrchestrationMatches := fun _ _ => false
    callSubOrchestratorMatches := fun _ _ => false
    callActivityMatches := fun name code => name == "ActB" && code == "codeOrchA"
    continueAsNewMatches := fun code => code == "codeOrchA"
    raiseEventMatches := fun e code =>
      (e == "E1" && code == "codeF1") || (e == "E2" && code == "codeF2")
    signalEntityMatches := fun _ _ => false
    waitForExternalEventCaptures := fun code => if code == "codeOrchA" then ["E1", "E2"] else []
    tryExtractBindings := fun _ => []
    parseProxiesJson := fun _ => none }

theorem c3_witness :
    calledByItselfAt
        (mapOrchestratorsAndActivitiesAsync scenarioEnv scenarioFunctions "proj" "hf") "OrchA"
      = scenarioEnv.continueAsNewMatches "codeOrchA" :=
  c3_isCalledByItself scenarioEnv scenarioFunctions "proj" "hf"
    ⟨"OrchA", "codeOrchA", "hf/OrchA/index.js", 0, 1⟩ (by decide) (by decide) (by decide)

theorem c4_witness :
    "OrchA" ∈ calledByAt
        (mapOrchestratorsAndActivitiesAsync scenarioEnv scenarioFunctions "proj" "hf") "ActB" :=
  c4_callActivity scenarioEnv scenarioFunctions "proj" "hf"
    ⟨"OrchA", "codeOrchA", "hf/OrchA/index.js", 0, 1⟩ "ActB" (by decide) (by decide) (by decide)

theorem c9_witness :
    signalledByAt
        (mapOrchestratorsAndActivitiesAsync scenarioEnv scenarioFunctions "proj" "hf") "OrchA"
      = [⟨"F1", "E1"⟩, ⟨"F2", "E2"⟩] := by
  rw [c9_isSignalledBy scenarioEnv scenarioFunctions "proj" "hf"
    ⟨"OrchA", "codeOrchA", "hf/OrchA/index.js", 0, 1⟩ (by decide) (by decide) (by decide)]
  decide

/-- One value of the ProxiesMap: the descriptor's own JSON fields are
never inspected and are kept as an opaque `payload`; the four fields the
reader computes are explicit. -/
structure ProxyInfo where
  payload : String
  filePath : Option String := none
  pos : Option Nat := none
  lineNr : Option Nat := none
  warningNotAddedToCsProjFile : Bool := false
deriving DecidableEq, Repr

/-- The proxies object keyed by proxy name, in object order. -/
abbrev ProxiesMap := List (String × ProxyInfo)

/-- JS `\s*` for the two inline regexes, with `\s` as `Char.isWhitespace`. -/
def skipWs (cs : List Char) : List Char := cs.dropWhile (fun ch => ch.isWhitespace)

/-- Zero or more whitespace characters followed by a colon. -/
def wsThenColon (cs : List Char) : Bool :=
  match skipWs cs with
  | ':' :: _ => true
  | _ => false

/-- Zero or more whitespace characters followed by a greater-than sign. -/
def wsThenGt (cs : List Char) : Bool :=
  match skipWs cs with
  | '>' :: _ => true
  | _ => false

/-- Whether the pattern of line 160 matches at the start of `text`: the
proxy name in double quotes, optional whitespace, then a colon. -/
def proxyHeaderAt (text name : List Char) : Bool :=
  (('"' :: name) ++ ['"']).isPrefixOf text && wsThenColon (text.drop (name.length + 2))

/-- First index at which the quoted-name-colon pattern matches. -/
def findProxyHeader : List Char → List Char → Nat → Option Nat
  | [], _, _ => none
  | c :: rest, name, i =>
    if proxyHeaderAt (c :: rest) name then some i
    else findProxyHeader rest name (i + 1)

/-- The inline regex `"${proxyName}"\s*:` of line 160: `.exec` returns the
first match, whose `.index` this models. The proxy name is matched
literally (regex metacharacters injected through the name are not
modelled). -/
def proxyNameRegexExec (text name : String) : Option Nat :=
  findProxyHeader text.data name.data 0

/-- Whether the pattern of line 143 matches at the start of the character
list: `=`, optional whitespace, `"proxies.json"` (with the `.` as the
regex wildcard), optional whitespace, `>`. The leading `\s*` of the regex
is immaterial for a whole-string search. -/
def csprojEntryAt (cs : List Char) : Bool :=
  match cs with
  | '=' :: rest =>
    match skipWs rest with
    | '"' :: r2 =>
      ("proxies".data.isPrefixOf r2) &&
      (match r2.drop 7 with
       | _ :: r3 =>
         ("json".data.isPrefixOf r3) &&
         (match r3.drop 4 with
          | '"' :: r4 => wsThenGt r4
          | _ => false)
       | [] => false)
    | _ => false
  | _ => false

/-- Whole-string search for the csproj proxies entry pattern. -/
def containsCsprojEntry : List Char → Bool
  | [] => false
  | c :: rest => csprojEntryAt (c :: rest) || containsCsprojEntry rest

/-- Truthiness of `proxiesJsonEntryRegex.exec(csProjFile.code)` (line 145). -/
def csprojHasProxiesJsonEntry (s : String) : Bool := containsCsprojEntry s.data

/-- Lines 137–149: `proxies.json` must be listed in the `.csproj` file of
a dotNet project, else every proxy gets a warning flag. -/
def proxiesNotInCsProj (env : Env) (projectFolder : String) : Bool :=
  if env.isDotNetProject projectFolder then
    match env.findFileRecursively projectFolder ".+\\.csproj$" true none with
    | some csProjFile => !csProjFile.code.isEmpty && !csprojHasProxiesJsonEntry csProjFile.code
    | none => false
  else false

/-- The body of the `for (var proxyName in proxies)` loop (lines 152–167):
set `filePath`, optionally the csproj warning, and — only when the
quoted-name regex matches — `pos` and `lineNr`. -/
def annotateProxy (proxiesJsonPath proxiesJsonString : String)
    (notAddedToCsProjFile : Bool) (kv : String × String) : String × ProxyInfo :=
  let proxy0 : ProxyInfo := { payload := kv.2 }
  let proxy1 := { proxy0 with filePath := some proxiesJsonPath }
  let proxy2 :=
    if notAddedToCsProjFile then { proxy1 with warningNotAddedToCsProjFile := true }
    else proxy1
  match proxyNameRegexExec proxiesJsonString kv.1 with
  | some idx =>
      (kv.1,
        { proxy2 with
            pos := some idx
            lineNr := some (posToLineNr proxiesJsonString idx) })
  | none => (kv.1, proxy2)

/-- `readProxiesJson` (lines 122–176): absent file or unparsable JSON or a
falsy `proxies` property yields an empty map (non-fatal); otherwise every
entry is annotated in place. (`proxiesJsonPath` and `proxiesJsonString`
are inlined.) -/
def readProxiesJson (env : Env) (projectFolder : String) : ProxiesMap :=
  if !env.fileExists (env.pathJoin projectFolder "proxies.json") then []
  else
    match env.parseProxiesJson (env.readFile (env.pathJoin projectFolder "proxies.json")) with
    | none => []
    | some none => []
    | some (some proxies) =>
      proxies.map
        (annotateProxy (env.pathJoin projectFolder "proxies.json")
          (env.readFile (env.pathJoin projectFolder "proxies.json"))
          (proxiesNotInCsProj env projectFolder))

/-- The traversal's sole output (`TraverseFunctionResult`). -/
structure TraverseFunctionResult where
  functions : FunctionsMap
  proxies : ProxiesMap
  tempFolders : List String
  projectFolder : String

/-- Lines 87–109: read each `function.json` under the host.json folder;
entries that are not function directories, or whose descriptor fails to
parse, are skipped (non-fatal). -/
def readFunctionsFromFunctionJsons (env : Env) (hostJsonFolder : String) : FunctionsMap :=
  (env.readdir hostJsonFolder).foldl
    (fun fs functionName =>
      match env.tryReadFunctionJson hostJsonFolder functionName with
      | FunctionJsonOutcome.parsed bindings =>
          fs ++ [(functionName, { bindings := bindings, isCalledBy := [], isSignalledBy := [] })]
      | _ => fs)
    []

/-- `projectFolder.toLowerCase().startsWith('http')` (line 28), on
character lists so that concrete instances evaluate. -/
def startsWithHttpLower (s : String) : Bool :=
  "http".data.isPrefixOf (s.data.map Char.toLower)

/-- Lines 27–38: clone a git URL into a temp folder, else keep the local
path. -/
def resolveProjectFolder (env : Env) (projectFolder : String) :
    Except String (List String × String) :=
  if startsWithHttpLower projectFolder then
    match env.cloneFromGitHub projectFolder with
    | Except.error e => Except.error e
    | Except.ok gitInfo => Except.ok ([gitInfo.gitTempFolder], gitInfo.projectFolder)
  else Except.ok ([], projectFolder)

/-- Lines 71–118 as a record: the functions map per project kind, the
proxies map, and the accumulated temp folders. -/
def buildTraverseResult (env : Env) (tempFolders : List String)
    (projectFolder hostJsonFolder : String) (isolated isJavaProject : Bool) :
    TraverseFunctionResult :=
  { functions :=
      if isJavaProject then
        mapOrchestratorsAndActivitiesAsync env (env.traverseJavaProject projectFolder)
          projectFolder hostJsonFolder
      else if isolated then
        env.traverseDotNetIsolatedProject projectFolder
      else
        mapOrchestratorsAndActivitiesAsync env
          (readFunctionsFromFunctionJsons env hostJsonFolder) projectFolder hostJsonFolder
    proxies := readProxiesJson env projectFolder
    tempFolders := tempFolders
    projectFolder := projectFolder }

/-- Lines 40–118, after the project folder has been resolved: locate
`host.json` (fatal if absent), determine the project kind, publish a
dotNet in-process project (fatal on build failure, and the publish folder
replaces the host.json folder), then build the result. -/
def traverseResolved (env : Env) (tempFolders : List String) (projectFolder : String) :
    Except String TraverseFunctionResult :=
  match env.findFileRecursively projectFolder "host.json" false none with
  | none => Except.error "host.json file not found under the provided project path"
  | some hostJsonMatch =>
    if !env.isDotNetIsolatedProject projectFolder then
      if env.isDotNetProject (env.dirname hostJsonMatch.filePath) then
        match env.dotnetPublish (env.dirname hostJsonMatch.filePath) with
        | Except.error e => Except.error e
        | Except.ok publishTempFolder =>
            Except.ok (buildTraverseResult env (tempFolders ++ [publishTempFolder])
              projectFolder publishTempFolder false (env.isJavaProject publishTempFolder))
      else
        Except.ok (buildTraverseResult env tempFolders projectFolder
          (env.dirname hostJsonMatch.filePath) false
          (env.isJavaProject (env.dirname hostJsonMatch.filePath)))
    else
      Except.ok (buildTraverseResult env tempFolders projectFolder
        (env.dirname hostJsonMatch.filePath) true false)

/-- `traverseFunctionProject` (lines 22–119). An `Except.error` is a
thrown JS exception propagating to the caller. -/
def traverseFunctionProject (env : Env) (projectFolder0 : String) :
    Except String TraverseFunctionResult :=
  match resolveProjectFolder env projectFolder0 with
  | Except.error e => Except.error e
  | Except.ok (tempFolders, projectFolder) => traverseResolved env tempFolders projectFolder

theorem traverseFunctionProject_ok (env : Env) (projectFolder0 : String)
    (tempFolders : List String) (projectFolder : String)
    (hres : resolveProjectFolder env projectFolder0 = Except.ok (tempFolders, projectFolder)) :
    traverseFunctionProject env projectFolder0 = traverseResolved env tempFolders projectFolder := by
  unfold traverseFunctionProject
  rw [hres]

/-- C5: when no `host.json` exists anywhere under the resolved project
folder, the whole traversal throws the fatal "not found" error and no
`TraverseFunctionResult` (not even a partial one) is produced. -/
theorem c5_missingHostJson (env : Env) (projectFolder0 : String)
    (tempFolders : List String) (projectFolder : String)
    (hres : resolveProjectFolder env projectFolder0 = Except.ok (tempFolders, projectFolder))
    (hhost : env.findFileRecursively projectFolder "host.json" false none = none) :
    traverseFunctionProject env projectFolder0
      = Except.error "host.json file not found under the provided project path" := by
  rw [traverseFunctionProject_ok env projectFolder0 tempFolders projectFolder hres]
  unfold traverseResolved
  rw [hhost]

theorem c5_witness :
    traverseFunctionProject scenarioEnv "proj"
      = Except.error "host.json file not found under the provided project path" :=
  c5_missingHostJson scenarioEnv "proj" [] "proj"
    (by unfold resolveProjectFolder; rw [if_neg (by decide)]) (by decide)

theorem readProxiesJson_parseFailure (env : Env) (projectFolder : String)
    (hparse : env.parseProxiesJson
      (env.readFile (env.pathJoin projectFolder "proxies.json")) = none) :
    readProxiesJson env projectFolder = [] := by
  unfold readProxiesJson
  by_cases hex : env.fileExists (env.pathJoin projectFolder "proxies.json") = true
  · rw [if_neg (by simp [hex])]
    simp only [hparse]
  · have hex' : env.fileExists (env.pathJoin projectFolder "proxies.json") = false := by
      cases hx : env.fileExists (env.pathJoin projectFolder "proxies.json")
      · rfl
      · exact absurd hx hex
    rw [if_pos (by simp [hex'])]

/-- C6: a `proxies.json` that exists but fails to parse never aborts the
traversal — under the same conditions that let the rest of the traversal
succeed, the result is `Except.ok` with an empty proxies map. -/
theorem c6_malformedProxies (env : Env) (projectFolder0 : String)
    (tempFolders : List String) (projectFolder : String) (hostJsonMatch : FileMatch)
    (hres : resolveProjectFolder env projectFolder0 = Except.ok (tempFolders, projectFolder))
    (hhost : env.findFileRecursively projectFolder "host.json" false none = some hostJsonMatch)
    (hpub : env.isDotNetProject (env.dirname hostJsonMatch.filePath) = true →
      ∃ g, env.dotnetPublish (env.dirname hostJsonMatch.filePath) = Except.ok g)
    (hex : env.fileExists (env.pathJoin projectFolder "proxies.json") = true)
    (hparse : env.parseProxiesJson
      (env.readFile (env.pathJoin projectFolder "proxies.json")) = none) :
    ∃ r, traverseFunctionProject env projectFolder0 = Except.ok r ∧ r.proxies = [] := by
  have hrp : readProxiesJson env projectFolder = [] :=
    readProxiesJson_parseFailure env projectFolder hparse
  rw [traverseFunctionProject_ok env projectFolder0 tempFolders projectFolder hres]
  unfold traverseResolved
  simp only [hhost]
  by_cases hiso : env.isDotNetIsolatedProject projectFolder = true
  · rw [if_neg (by simp [hiso])]
    exact ⟨_, rfl, hrp⟩
  · have hiso' : env.isDotNetIsolatedProject projectFolder = false := by
      cases hx : env.isDotNetIsolatedProject projectFolder
      · rfl
      · exact absurd hx hiso
    rw [if_pos (by simp [hiso'])]
    by_cases hdn : env.isDotNetProject (env.dirname hostJsonMatch.filePath) = true
    · obtain ⟨g, hg⟩ := hpub hdn
      rw [if_pos hdn]
      simp only [hg]
      exact ⟨_, rfl, hrp⟩
    · rw [if_neg hdn]
      exact ⟨_, rfl, hrp⟩

/-- Environment with a present but malformed `proxies.json`. -/
def proxiesEnv : Env :=
  { scenarioEnv with
      findFileRecursively := fun _ pat _ _ =>
        if pat == "host.json" then some ⟨"proj/host.json", "", none, none⟩ else none
      fileExists := fun p => p == "proj/proxies.json"
      readFile := fun _ => "not json"
      parseProxiesJson := fun _ => none }

theorem c6_witness :
    ∃ r, traverseFunctionProject proxiesEnv "proj" = Except.ok r ∧ r.proxies = [] :=
  c6_malformedProxies proxiesEnv "proj" [] "proj" ⟨"proj/host.json", "", none, none⟩
    (by unfold resolveProjectFolder; rw [if_neg (by decide)]) (by decide)
    (by intro h; exact absurd h (by decide))
    (by decide) (by decide)

theorem annotateProxy_spec (path text : String) (w : Bool) (kv : String × String) :
    (annotateProxy path text w kv).1 = kv.1 ∧
    (annotateProxy path text w kv).2.filePath = some path ∧
    (∀ idx, proxyNameRegexExec text kv.1 = some idx →
      (annotateProxy path text w kv).2.pos = some idx ∧
      (annotateProxy path text w kv).2.lineNr = some (posToLineNr text idx)) ∧
    (proxyNameRegexExec text kv.1 = none →
      (annotateProxy path text w kv).2.pos = none ∧
      (annotateProxy path text w kv).2.lineNr = none) := by
  unfold annotateProxy
  rcases hrx : proxyNameRegexExec text kv.1 with - | idx <;> cases hw : w <;>
    simp [hrx, hw]

/-- C10: for every entry of a successfully parsed `proxies.json`, the
returned proxy record always carries the descriptor's file path, while its
source position and line number are set exactly when the quoted proxy name
followed by optional whitespace and a colon occurs in the raw descriptor
text; with no match they remain unset. -/
theorem c10_proxyAnnotations (env : Env) (projectFolder : String)
    (pm : List (String × String)) (name payload : String)
    (hex : env.fileExists (env.pathJoin projectFolder "proxies.json") = true)
    (hparse : env.parseProxiesJson
      (env.readFile (env.pathJoin projectFolder "proxies.json")) = some (some pm))
    (hmem : (name, payload) ∈ pm) :
    ∃ proxy : ProxyInfo, (name, proxy) ∈ readProxiesJson env projectFolder ∧
      proxy.filePath = some (env.pathJoin projectFolder "proxies.json") ∧
      (∀ idx, proxyNameRegexExec
          (env.readFile (env.pathJoin projectFolder "proxies.json")) name = some idx →
        proxy.pos = some idx ∧
        proxy.lineNr = some (posToLineNr
          (env.readFile (env.pathJoin projectFolder "proxies.json")) idx)) ∧
      (proxyNameRegexExec
          (env.readFile (env.pathJoin projectFolder "proxies.json")) name = none →
        proxy.pos = none ∧ proxy.lineNr = none) := by
  obtain ⟨h1, h2, h3, h4⟩ := annotateProxy_spec (env.pathJoin projectFolder "proxies.json")
    (env.readFile (env.pathJoin projectFolder "proxies.json"))
    (proxiesNotInCsProj env projectFolder) (name, payload)
  refine ⟨(annotateProxy (env.pathJoin projectFolder "proxies.json")
    (env.readFile (env.pathJoin projectFolder "proxies.json"))
    (proxiesNotInCsProj env projectFolder) (name, payload)).2, ?_, h2, h3, h4⟩
  unfold readProxiesJson
  rw [if_neg (by simp [hex])]
  simp only [hparse]
  have hmm := List.mem_map_of_mem (annotateProxy (env.pathJoin projectFolder "proxies.json")
    (env.readFile (env.pathJoin projectFolder "proxies.json"))
    (proxiesNotInCsProj env projectFolder)) hmem
  have heq : (name, (annotateProxy (env.pathJoin projectFolder "proxies.json")
      (env.readFile (env.pathJoin projectFolder "proxies.json"))
      (proxiesNotInCsProj env projectFolder) (name, payload)).2)
      = annotateProxy (env.pathJoin projectFolder "proxies.json")
          (env.readFile (env.pathJoin projectFolder "proxies.json"))
          (proxiesNotInCsProj env projectFolder) (name, payload) :=
    Prod.ext h1.symm rfl
  rw [heq]
  exact hmm

/-- Environment with a well-formed `proxies.json` holding one proxy named
`foo`, whose quoted name is followed by whitespace and a colon in the raw
text. -/
def proxiesOkEnv : Env :=
  { scenarioEnv with
      fileExists := fun p => p == "proj/proxies.json"
      readFile := fun _ => "line1\n \"foo\" : 42\n"
      parseProxiesJson := fun _ => some (some [("foo", "42")]) }

theorem c10_witness :
    ∃ proxy : ProxyInfo, ("foo", proxy) ∈ readProxiesJson proxiesOkEnv "proj" ∧
      proxy.filePath = some (proxiesOkEnv.pathJoin "proj" "proxies.json") ∧
      (∀ idx, proxyNameRegexExec
          (proxiesOkEnv.readFile (proxiesOkEnv.pathJoin "proj" "proxies.json")) "foo" = some idx →
        proxy.pos = some idx ∧
        proxy.lineNr = some (posToLineNr
          (proxiesOkEnv.readFile (proxiesOkEnv.pathJoin "proj" "proxies.json")) idx)) ∧
      (proxyNameRegexExec
          (proxiesOkEnv.readFile (proxiesOkEnv.pathJoin "proj" "proxies.json")) "foo" = none →
        proxy.pos = none ∧ proxy.lineNr = none) :=
  c10_proxyAnnotations proxiesOkEnv "proj" [("foo", "42")] "foo" "42"
    (by decide) (by decide) (by decide)
